import Mathlib

/-!
# A tabular data-integrity checker, verified

This development formalises the generic tabular data-integrity checker that the
ticdat diet notebooks exercise: duplicate detection, field type/range
validation, foreign-key cross-referencing and row-predicate validation, over a
schema (tables, fields, primary keys, per-field type constraints, row
predicates, foreign-key links) and a data set (a mapping from table names to
ordered lists of rows).

The checker itself lives in an external library, so every operation here is
modelled from the specification of that capability; the concrete diet scenario
(clean and deliberately dirtied data) from the notebooks is reproduced as
concrete Lean data and the notebook outputs are re-derived.
-/

namespace TicdatCheck

/-- Modelled from the spec: a cell value of a data set is numeric, a string,
or null.  Numerics are modelled as rationals. -/
inductive Value where
  | num (q : ℚ)
  | str (s : String)
  | null
deriving DecidableEq, Repr

/-- Modelled from the spec: a row is a mapping from field name to value,
represented as an association list. -/
abbrev Row := List (String × Value)

/-- Field access in a row; a missing field reads as null. -/
def rowGet (r : Row) (f : String) : Value :=
  (List.lookup f r).getD Value.null

/-- Modelled from the spec: a per-field type constraint, as the tagged
variants the design notes call for: a numeric range (with nullability) or an
enumerated set of allowed flag strings (with nullability). -/
inductive FieldConstraint where
  | numeric (lo hi : ℚ) (nullable : Bool)
  | oneOf (allowed : List String) (nullable : Bool)
deriving DecidableEq, Repr

/-- Whether a value satisfies a field type constraint: numeric fields demand a
number inside the declared range, enumerated fields demand one of the allowed
strings, and null passes exactly when the constraint is nullable. -/
def FieldConstraint.ok : FieldConstraint → Value → Bool
  | .numeric lo hi _, .num q => decide (lo ≤ q ∧ q ≤ hi)
  | .numeric _ _ nb, .null => nb
  | .numeric _ _ _, .str _ => false
  | .oneOf allowed _, .str s => allowed.contains s
  | .oneOf _ nb, .null => nb
  | .oneOf _ _, .num _ => false

/-- Modelled from the spec: a table definition gives the ordered field names,
the (possibly empty) primary key, the per-field type constraints and the named
row-level predicates. -/
structure TableDef where
  fields : List String
  primaryKey : List String
  typeConstraints : List (String × FieldConstraint)
  predicates : List (String × (Row → Bool))

/-- Modelled from the spec: a foreign-key link
(child table, child field-tuple) → (parent table, parent field-tuple). -/
structure ForeignKey where
  childTable : String
  childFields : List String
  parentTable : String
  parentFields : List String

/-- Modelled from the spec: a schema is a mapping from table name to table
definition together with the declared foreign-key links. -/
structure Schema where
  tables : List (String × TableDef)
  foreignKeys : List ForeignKey

/-- Modelled from the spec: a data set maps each table name to an ordered
sequence of rows. -/
abbrev DataSet := List (String × List Row)

/-- The rows a data set holds for a table (no rows when the table is absent). -/
def dataGet (d : DataSet) (t : String) : List Row :=
  (List.lookup t d).getD []

/-- The primary-key tuple of a row: the row's values at the key fields. -/
def pkOf (pk : List String) (r : Row) : List Value :=
  pk.map (rowGet r)

/-- The list of primary-key tuples of a list of rows, in row order. -/
def keyList (pk : List String) (rows : List Row) : List (List Value) :=
  rows.map (pkOf pk)

/-- Worker for `dedupFirst`: drop the elements already seen. -/
def dedupFirstAux {α : Type} [DecidableEq α] (seen : List α) : List α → List α
  | [] => []
  | k :: ks =>
    if k ∈ seen then dedupFirstAux seen ks
    else k :: dedupFirstAux (k :: seen) ks

/-- Remove later repetitions from a list, keeping the first occurrence of each
element (the order a Python dict or a group-by presents keys in). -/
def dedupFirst {α : Type} [DecidableEq α] (l : List α) : List α :=
  dedupFirstAux [] l

/-- How many elements of a list of key tuples equal a given key tuple. -/
def countKey (k : List Value) (l : List (List Value)) : Nat :=
  (l.filter (fun x => x = k)).length

/-- Modelled from the spec: duplicate report for one table: each distinct
primary-key tuple occurring in more than one row, with its total occurrence
count. -/
def dupReport (pk : List String) (rows : List Row) : List (List Value × Nat) :=
  (dedupFirst (keyList pk rows)).filterMap fun k =>
    let n := countKey k (keyList pk rows)
    if 1 < n then some (k, n) else none

/-- Modelled from the spec: `find_duplicates` groups each table's rows by
primary-key value and reports any key appearing more than once with its total
occurrence count; tables with an empty primary key are skipped, and tables with
no duplicates are omitted. -/
def find_duplicates (s : Schema) (d : DataSet) : List (String × List (List Value × Nat)) :=
  s.tables.filterMap fun td =>
    if td.2.primaryKey = [] then none
    else
      let r := dupReport td.2.primaryKey (dataGet d td.1)
      if r = [] then none else some (td.1, r)

/-- Worker for `dedupRows`: drop the rows whose key was already seen. -/
def dedupRowsAux (pk : List String) (seen : List (List Value)) : List Row → List Row
  | [] => []
  | r :: rs =>
    if pkOf pk r ∈ seen then dedupRowsAux pk seen rs
    else r :: dedupRowsAux pk (pkOf pk r :: seen) rs

/-- Modelled from the spec: deduplication of a table's rows by primary key,
keeping the first representative of each key, as the scan performed by the
type-failure and row-predicate checks ("post-deduplication by primary key,
i.e. first-or-any representative per key"). -/
def dedupRows (pk : List String) (rows : List Row) : List Row :=
  if pk = [] then rows else dedupRowsAux pk [] rows

/-- Modelled from the spec: the type failures of one constrained field, grouped
by distinct bad value, each group listing the primary keys of the offending
(deduplicated) rows sharing that value. -/
def typeFailuresFor (c : FieldConstraint) (f : String) (pk : List String)
    (rows : List Row) : List (Value × List (List Value)) :=
  let bad := (dedupRows pk rows).filter (fun r => ! c.ok (rowGet r f))
  (dedupFirst (bad.map (fun r => rowGet r f))).map fun v =>
    (v, (bad.filter (fun r => rowGet r f = v)).map (pkOf pk))

/-- Modelled from the spec: `find_data_type_failures` reports, for each
(table, field) pair bearing a type constraint, the bad values found in the
deduplicated rows together with the offending primary keys, grouped by
distinct bad value; fields with no failures are omitted. -/
def find_data_type_failures (s : Schema) (d : DataSet) :
    List ((String × String) × List (Value × List (List Value))) :=
  s.tables.flatMap fun td =>
    td.2.typeConstraints.filterMap fun fc =>
      let r := typeFailuresFor fc.2 fc.1 td.2.primaryKey (dataGet d td.1)
      if r = [] then none else some ((td.1, fc.1), r)

/-- Verbosity of the foreign-key report. -/
inductive Verbosity where
  | low
  | high
deriving DecidableEq, Repr

/-- Content of one foreign-key failure entry: at low verbosity the distinct
failing field-tuple values together with the offending child primary keys; at
high verbosity the full content of the offending child rows. -/
inductive FKEntry where
  | low (badValues : List (List Value)) (pks : List (List Value))
  | high (rows : List Row)
deriving DecidableEq, Repr

/-- The primary key declared by a schema for one of its tables. -/
def tablePk (s : Schema) (t : String) : List String :=
  ((List.lookup t s.tables).map TableDef.primaryKey).getD []

/-- The child rows of a foreign-key link whose field-tuple value is absent
from the set of parent-side key tuples present in the parent table. -/
def fkFailRows (d : DataSet) (fk : ForeignKey) : List Row :=
  let parentKeys := keyList fk.parentFields (dataGet d fk.parentTable)
  (dataGet d fk.childTable).filter (fun r => pkOf fk.childFields r ∉ parentKeys)

/-- The report entry of one foreign-key link, when it has failures. -/
def fkEntry (s : Schema) (d : DataSet) (v : Verbosity) (fk : ForeignKey) :
    Option FKEntry :=
  let fails := fkFailRows d fk
  if fails = [] then none
  else some (match v with
    | .low => .low (dedupFirst (fails.map (pkOf fk.childFields)))
        (fails.map (pkOf (tablePk s fk.childTable)))
    | .high => .high fails)

/-- The key under which a foreign-key link is reported:
(child table, parent table, child-field/parent-field pairing). -/
def fkKey (fk : ForeignKey) : String × String × List (String × String) :=
  (fk.childTable, fk.parentTable, fk.childFields.zip fk.parentFields)

/-- Modelled from the spec: `find_foreign_key_failures` reports, for each
declared foreign-key link, the child rows whose field-tuple is absent from the
parent-side key tuples; low verbosity collapses the entry to the distinct
failing values and the offending child primary keys, high verbosity keeps the
full rows.  Links with no failures are omitted. -/
def find_foreign_key_failures (s : Schema) (d : DataSet) (v : Verbosity) :
    List ((String × String × List (String × String)) × FKEntry) :=
  s.foreignKeys.filterMap fun fk => (fkEntry s d v fk).map (fun e => (fkKey fk, e))

/-- The primary keys of the deduplicated rows of a table failing one named
row predicate. -/
def predFailPks (pk : List String) (p : Row → Bool) (rows : List Row) :
    List (List Value) :=
  ((dedupRows pk rows).filter (fun r => ! p r)).map (pkOf pk)

/-- Modelled from the spec: `find_data_row_failures` evaluates each declared
row-level predicate against every deduplicated row of its table and reports,
under (table, predicate name), the primary keys of the rows on which the
predicate is false; predicates with no failures are omitted. -/
def find_data_row_failures (s : Schema) (d : DataSet) :
    List ((String × String) × List (List Value)) :=
  s.tables.flatMap fun td =>
    td.2.predicates.filterMap fun np =>
      let bad := predFailPks td.2.primaryKey np.2 (dataGet d td.1)
      if bad = [] then none else some ((td.1, np.1), bad)

/-- The "Min Max Check" row predicate of the diet scenario: the Max Nutrition
value must be at least the Min Nutrition value (false on non-numeric cells). -/
def minMaxCheck (r : Row) : Bool :=
  match rowGet r "Min Nutrition", rowGet r "Max Nutrition" with
  | .num lo, .num hi => decide (lo ≤ hi)
  | _, _ => false

/-- The foods table of the diet scenario: a single key field Name. -/
def foodsTD : TableDef where
  fields := ["Name"]
  primaryKey := ["Name"]
  typeConstraints := []
  predicates := []

/-- The categories table of the diet scenario, carrying the Min Max Check
predicate. -/
def categoriesTD : TableDef where
  fields := ["Name", "Min Nutrition", "Max Nutrition"]
  primaryKey := ["Name"]
  typeConstraints := []
  predicates := [("Min Max Check", minMaxCheck)]

/-- The nutrition_quantities table of the diet scenario: composite key
(Food, Category) and Quantity constrained to a non-null number. -/
def nqTD : TableDef where
  fields := ["Food", "Category", "Quantity"]
  primaryKey := ["Food", "Category"]
  typeConstraints := [("Quantity", .numeric 0 (10 ^ 12) false)]
  predicates := []

/-- Modelled from the spec: the diet scenario schema: tables foods(Name),
categories(Name, Min Nutrition, Max Nutrition) with the "Min Max Check"
predicate, and nutrition_quantities(Food, Category, Quantity) with primary key
(Food, Category), foreign keys to foods.Name and categories.Name, and Quantity
constrained to a non-null number. -/
def dietSchema : Schema where
  tables :=
    [("foods", foodsTD), ("categories", categoriesTD),
      ("nutrition_quantities", nqTD)]
  foreignKeys :=
    [ { childTable := "nutrition_quantities", childFields := ["Food"],
        parentTable := "foods", parentFields := ["Name"] },
      { childTable := "nutrition_quantities", childFields := ["Category"],
        parentTable := "categories", parentFields := ["Name"] } ]

/-- A foods row of the diet data. -/
def foodRow (n : String) : Row := [("Name", .str n)]

/-- A categories row of the diet data. -/
def categoryRow (n : String) (lo hi : ℚ) : Row :=
  [("Name", .str n), ("Min Nutrition", .num lo), ("Max Nutrition", .num hi)]

/-- A nutrition_quantities row of the diet data. -/
def nqRow (f c : String) (q : Value) : Row :=
  [("Food", .str f), ("Category", .str c), ("Quantity", q)]

/-- Modelled from the spec: the deliberately dirtied diet data set: a
duplicated (milk, fat) key, two empty-string Quantity cells, four rows
referencing the food "pizza" while foods only holds "pizza pie", and a
categories row ("fat", 70, 65) whose Min exceeds its Max. -/
def dirtyDietData : DataSet :=
  [ ("foods", [foodRow "pizza pie", foodRow "milk", foodRow "chicken",
      foodRow "macaroni"]),
    ("categories", [categoryRow "protein" 91 99999, categoryRow "calories" 1800 2200,
      categoryRow "fat" 70 65, categoryRow "sodium" 0 1779]),
    ("nutrition_quantities",
      [ nqRow "macaroni" "calories" (.str ""),
        nqRow "pizza" "protein" (.num 15),
        nqRow "pizza" "sodium" (.num 820),
        nqRow "pizza" "fat" (.num 12),
        nqRow "pizza" "calories" (.num 320),
        nqRow "milk" "fat" (.num 2),
        nqRow "chicken" "fat" (.str ""),
        nqRow "milk" "fat" (.num 1) ]) ]

example : find_duplicates dietSchema dirtyDietData =
    [("nutrition_quantities", [([.str "milk", .str "fat"], 2)])] := by decide

example : find_data_type_failures dietSchema dirtyDietData =
    [(("nutrition_quantities", "Quantity"),
      [(.str "", [[.str "macaroni", .str "calories"], [.str "chicken", .str "fat"]])])] := by
  decide

example : find_foreign_key_failures dietSchema dirtyDietData .low =
    [(("nutrition_quantities", "foods", [("Food", "Name")]),
      .low [[.str "pizza"]]
        [[.str "pizza", .str "protein"], [.str "pizza", .str "sodium"],
         [.str "pizza", .str "fat"], [.str "pizza", .str "calories"]])] := by decide

example : find_data_row_failures dietSchema dirtyDietData =
    [(("categories", "Min Max Check"), [[.str "fat"]])] := by decide

/-! ## Basic lemmas about first-occurrence deduplication -/

theorem mem_dedupFirstAux {α : Type} [DecidableEq α] {l : List α} {a : α} :
    ∀ {seen : List α}, a ∈ dedupFirstAux seen l ↔ (a ∈ l ∧ a ∉ seen) := by
  induction l with
  | nil => intro seen; simp [dedupFirstAux]
  | cons k ks ih =>
    intro seen
    simp only [dedupFirstAux]
    split <;> rename_i hk
    · rw [ih]
      simp only [List.mem_cons]
      constructor
      · rintro ⟨h1, h2⟩
        exact ⟨Or.inr h1, h2⟩
      · rintro ⟨rfl | h1, h2⟩
        · exact absurd hk h2
        · exact ⟨h1, h2⟩
    · simp only [List.mem_cons, ih]
      constructor
      · rintro (rfl | ⟨h1, h2⟩)
        · exact ⟨Or.inl rfl, hk⟩
        · exact ⟨Or.inr h1, fun hs => h2 (Or.inr hs)⟩
      · rintro ⟨h1, h2⟩
        by_cases hak : a = k
        · exact Or.inl hak
        · rcases h1 with rfl | h1
          · exact Or.inl rfl
          · exact Or.inr ⟨h1, fun hs => hs.elim hak h2⟩

theorem mem_dedupFirst {α : Type} [DecidableEq α] {l : List α} {a : α} :
    a ∈ dedupFirst l ↔ a ∈ l := by
  unfold dedupFirst
  rw [mem_dedupFirstAux]
  simp

theorem nodup_dedupFirstAux {α : Type} [DecidableEq α] (l : List α) :
    ∀ seen, (dedupFirstAux seen l).Nodup := by
  induction l with
  | nil => intro seen; simp [dedupFirstAux]
  | cons k ks ih =>
    intro seen
    simp only [dedupFirstAux]
    split
    · exact ih _
    · refine List.nodup_cons.mpr ⟨fun hmem => ?_, ih _⟩
      exact (mem_dedupFirstAux.mp hmem).2 (List.mem_cons_self _ _)

theorem dedupFirst_eq_nil {α : Type} [DecidableEq α] {l : List α} :
    dedupFirst l = [] ↔ l = [] := by
  constructor
  · intro h
    rw [List.eq_nil_iff_forall_not_mem]
    intro a ha
    have : a ∈ dedupFirst l := mem_dedupFirst.mpr ha
    rw [h] at this
    exact List.not_mem_nil a this
  · rintro rfl
    rfl

/-! ## Basic lemmas about row deduplication by primary key -/

theorem mem_of_mem_dedupRowsAux {pk : List String} {rows : List Row} {r : Row} :
    ∀ {seen : List (List Value)}, r ∈ dedupRowsAux pk seen rows → r ∈ rows := by
  induction rows with
  | nil => intro seen h; exact absurd h (List.not_mem_nil r)
  | cons r0 rs ih =>
    intro seen h
    simp only [dedupRowsAux] at h
    split at h
    · exact List.mem_cons_of_mem _ (ih h)
    · rcases List.mem_cons.mp h with rfl | h
      · exact List.mem_cons_self _ _
      · exact List.mem_cons_of_mem _ (ih h)

theorem mem_of_mem_dedupRows {pk : List String} {rows : List Row} {r : Row}
    (h : r ∈ dedupRows pk rows) : r ∈ rows := by
  unfold dedupRows at h
  split at h
  · exact h
  · exact mem_of_mem_dedupRowsAux h

/-- Row deduplication computes, on keys, exactly first-occurrence
deduplication of the key list. -/
theorem keyList_dedupRowsAux (pk : List String) (rows : List Row) :
    ∀ seen, keyList pk (dedupRowsAux pk seen rows) = dedupFirstAux seen (keyList pk rows) := by
  induction rows with
  | nil => intro seen; rfl
  | cons r rs ih =>
    intro seen
    simp only [dedupRowsAux, keyList, List.map_cons, dedupFirstAux]
    by_cases hpk : pkOf pk r ∈ seen
    · simp only [if_pos hpk]
      exact ih seen
    · simp only [if_neg hpk, List.map_cons]
      rw [show List.map (pkOf pk) (dedupRowsAux pk (pkOf pk r :: seen) rs) =
        keyList pk (dedupRowsAux pk (pkOf pk r :: seen) rs) from rfl, ih]
      rfl

theorem keyList_dedupRows {pk : List String} (hpk : pk ≠ []) (rows : List Row) :
    keyList pk (dedupRows pk rows) = dedupFirst (keyList pk rows) := by
  unfold dedupRows
  rw [if_neg hpk]
  exact keyList_dedupRowsAux pk rows []

theorem nodup_keyList_dedupRows {pk : List String} (hpk : pk ≠ []) (rows : List Row) :
    (keyList pk (dedupRows pk rows)).Nodup := by
  rw [keyList_dedupRows hpk]
  exact nodup_dedupFirstAux _ _

theorem dedupRowsAux_eq_self {pk : List String} {rows : List Row}
    (h : (keyList pk rows).Nodup) :
    ∀ {seen : List (List Value)}, (∀ k ∈ keyList pk rows, k ∉ seen) →
      dedupRowsAux pk seen rows = rows := by
  induction rows with
  | nil => intro seen _; rfl
  | cons r rs ih =>
    intro seen hdisj
    have hkey : pkOf pk r ∉ seen := hdisj _ (List.mem_cons_self _ _)
    have hnodup : (keyList pk rs).Nodup := (List.nodup_cons.mp h).2
    have hhead : pkOf pk r ∉ keyList pk rs := (List.nodup_cons.mp h).1
    simp only [dedupRowsAux, if_neg hkey]
    congr 1
    refine ih hnodup ?_
    intro k hk hks
    rcases List.mem_cons.mp hks with rfl | hks
    · exact hhead hk
    · exact hdisj k (List.mem_cons_of_mem _ hk) hks

theorem dedupRows_eq_self {pk : List String} {rows : List Row}
    (h : (keyList pk rows).Nodup) : dedupRows pk rows = rows := by
  unfold dedupRows
  split
  · rfl
  · exact dedupRowsAux_eq_self h (by intro k _ hk; exact List.not_mem_nil k hk)

/-- Members of the deduplicated rows with equal primary keys are equal. -/
theorem dedupRows_pk_inj {pk : List String} (hpk : pk ≠ []) {rows : List Row}
    {r1 r2 : Row} (h1 : r1 ∈ dedupRows pk rows) (h2 : r2 ∈ dedupRows pk rows)
    (hk : pkOf pk r1 = pkOf pk r2) : r1 = r2 := by
  have hnd : ((dedupRows pk rows).map (pkOf pk)).Nodup := nodup_keyList_dedupRows hpk rows
  exact List.inj_on_of_nodup_map hnd h1 h2 hk

/-! ## Counting keys -/

theorem countKey_cons (k a : List Value) (l : List (List Value)) :
    countKey k (a :: l) = (if a = k then 1 else 0) + countKey k l := by
  simp only [countKey, List.filter_cons]
  by_cases h : a = k <;> simp [h, Nat.add_comm]

theorem countKey_pos {k : List Value} {l : List (List Value)} :
    0 < countKey k l ↔ k ∈ l := by
  induction l with
  | nil => simp [countKey]
  | cons a l ih =>
    rw [countKey_cons, List.mem_cons]
    by_cases h : a = k
    · subst h
      rw [if_pos rfl]
      constructor
      · intro _
        exact Or.inl rfl
      · intro _
        omega
    · rw [if_neg h, Nat.zero_add, ih]
      constructor
      · exact Or.inr
      · rintro (rfl | hm)
        · exact absurd rfl h
        · exact hm

theorem countKey_eq_zero {k : List Value} {l : List (List Value)} :
    countKey k l = 0 ↔ k ∉ l := by
  rw [← countKey_pos]
  omega

theorem nodup_iff_countKey_le_one {l : List (List Value)} :
    l.Nodup ↔ ∀ k, countKey k l ≤ 1 := by
  induction l with
  | nil => simp [countKey]
  | cons a l ih =>
    rw [List.nodup_cons]
    constructor
    · rintro ⟨ha, hnd⟩ k
      rw [countKey_cons]
      by_cases h : a = k
      · subst h
        have h0 : countKey a l = 0 := countKey_eq_zero.mpr ha
        simp [h0]
      · have := ih.mp hnd k
        simp only [if_neg h]
        omega
    · intro h
      refine ⟨fun hmem => ?_, ih.mpr fun k => ?_⟩
      · have h1 := h a
        rw [countKey_cons, if_pos rfl] at h1
        have h2 : 0 < countKey a l := countKey_pos.mpr hmem
        omega
      · have h1 := h k
        rw [countKey_cons] at h1
        split at h1 <;> omega

/-! ## Characterisation of the duplicate report -/

theorem mem_dupReport {pk : List String} {rows : List Row} {k : List Value} {n : Nat} :
    (k, n) ∈ dupReport pk rows ↔ (countKey k (keyList pk rows) = n ∧ 1 < n) := by
  unfold dupReport
  rw [List.mem_filterMap]
  constructor
  · rintro ⟨a, _, heq⟩
    by_cases hlt : 1 < countKey a (keyList pk rows)
    · rw [if_pos hlt] at heq
      cases Option.some.inj heq
      exact ⟨rfl, hlt⟩
    · rw [if_neg hlt] at heq
      exact absurd heq Option.noConfusion
  · rintro ⟨hcount, hlt⟩
    refine ⟨k, ?_, ?_⟩
    · rw [mem_dedupFirst]
      exact countKey_pos.mp (by omega)
    · rw [hcount, if_pos (hcount ▸ hlt)]

theorem dupReport_eq_nil {pk : List String} {rows : List Row} :
    dupReport pk rows = [] ↔ (keyList pk rows).Nodup := by
  rw [nodup_iff_countKey_le_one]
  constructor
  · intro h a
    by_contra hgt
    have hlt : 1 < countKey a (keyList pk rows) := by omega
    have : (a, countKey a (keyList pk rows)) ∈ dupReport pk rows :=
      mem_dupReport.mpr ⟨rfl, hlt⟩
    rw [h] at this
    exact List.not_mem_nil _ this
  · intro h
    unfold dupReport
    rw [List.filterMap_eq_nil_iff]
    intro a _
    have : ¬ 1 < countKey a (keyList pk rows) := by have := h a; omega
    simp only [if_neg this]

theorem mem_find_duplicates {s : Schema} {d : DataSet} {t : String}
    {rep : List (List Value × Nat)} :
    (t, rep) ∈ find_duplicates s d ↔
      ∃ td, (t, td) ∈ s.tables ∧ td.primaryKey ≠ [] ∧
        rep = dupReport td.primaryKey (dataGet d t) ∧ rep ≠ [] := by
  unfold find_duplicates
  rw [List.mem_filterMap]
  constructor
  · rintro ⟨⟨t0, td⟩, hmem, heq⟩
    by_cases hpk : td.primaryKey = []
    · rw [if_pos hpk] at heq
      exact absurd heq Option.noConfusion
    · rw [if_neg hpk] at heq
      by_cases hr : dupReport td.primaryKey (dataGet d t0) = []
      · rw [if_pos hr] at heq
        exact absurd heq Option.noConfusion
      · rw [if_neg hr] at heq
        cases Option.some.inj heq
        exact ⟨td, hmem, hpk, rfl, hr⟩
  · rintro ⟨td, hmem, hpk, rfl, hne⟩
    exact ⟨(t, td), hmem, by rw [if_neg hpk, if_neg hne]⟩

theorem find_duplicates_eq_nil {s : Schema} {d : DataSet} :
    find_duplicates s d = [] ↔
      ∀ t td, (t, td) ∈ s.tables → td.primaryKey ≠ [] →
        (keyList td.primaryKey (dataGet d t)).Nodup := by
  unfold find_duplicates
  rw [List.filterMap_eq_nil_iff]
  constructor
  · intro h t td hmem hpk
    have := h (t, td) hmem
    rw [if_neg hpk] at this
    by_cases hr : dupReport td.primaryKey (dataGet d t) = []
    · exact dupReport_eq_nil.mp hr
    · rw [if_neg hr] at this
      exact absurd this Option.noConfusion
  · rintro h ⟨t, td⟩ hmem
    by_cases hpk : td.primaryKey = []
    · rw [if_pos hpk]
    · rw [if_neg hpk, if_pos (dupReport_eq_nil.mpr (h t td hmem hpk))]

/-! ## Characterisation of the type-failure report -/

/-- The offending (deduplicated) rows of one constrained field. -/
def badRowsFor (c : FieldConstraint) (f : String) (pk : List String)
    (rows : List Row) : List Row :=
  (dedupRows pk rows).filter (fun r => ! c.ok (rowGet r f))

theorem typeFailuresFor_eq_map (c : FieldConstraint) (f : String) (pk : List String)
    (rows : List Row) :
    typeFailuresFor c f pk rows =
      (dedupFirst ((badRowsFor c f pk rows).map (fun r => rowGet r f))).map fun v =>
        (v, ((badRowsFor c f pk rows).filter (fun r => rowGet r f = v)).map (pkOf pk)) :=
  rfl

theorem typeFailuresFor_eq_nil {c : FieldConstraint} {f : String} {pk : List String}
    {rows : List Row} :
    typeFailuresFor c f pk rows = [] ↔
      ∀ r ∈ dedupRows pk rows, c.ok (rowGet r f) = true := by
  rw [typeFailuresFor_eq_map, List.map_eq_nil_iff, dedupFirst_eq_nil,
    List.map_eq_nil_iff]
  unfold badRowsFor
  rw [List.filter_eq_nil_iff]
  constructor
  · intro h r hr
    have := h r hr
    simpa using this
  · intro h r hr
    simp [h r hr]

/-- The distinct grouping values of the type-failure report of one field are
exactly the distinct bad values, and they are distinct. -/
theorem map_fst_typeFailuresFor (c : FieldConstraint) (f : String) (pk : List String)
    (rows : List Row) :
    (typeFailuresFor c f pk rows).map Prod.fst =
      dedupFirst ((badRowsFor c f pk rows).map (fun r => rowGet r f)) := by
  rw [typeFailuresFor_eq_map, List.map_map]
  have h : ∀ v ∈ dedupFirst ((badRowsFor c f pk rows).map (fun r => rowGet r f)),
      (Prod.fst ∘ fun v =>
        (v, ((badRowsFor c f pk rows).filter (fun r => rowGet r f = v)).map (pkOf pk))) v = v :=
    fun v _ => rfl
  rw [List.map_congr_left h]
  exact List.map_id _

theorem nodup_typeFailuresFor_values (c : FieldConstraint) (f : String)
    (pk : List String) (rows : List Row) :
    ((typeFailuresFor c f pk rows).map Prod.fst).Nodup := by
  rw [map_fst_typeFailuresFor]
  exact nodup_dedupFirstAux _ _

/-- A group of the type-failure report of one field holds exactly the primary
keys of the offending deduplicated rows sharing its bad value. -/
theorem mem_typeFailuresFor {c : FieldConstraint} {f : String} {pk : List String}
    {rows : List Row} {v : Value} {pks : List (List Value)} :
    (v, pks) ∈ typeFailuresFor c f pk rows ↔
      (∃ r ∈ badRowsFor c f pk rows, rowGet r f = v) ∧
        pks = ((badRowsFor c f pk rows).filter (fun r => rowGet r f = v)).map (pkOf pk) := by
  rw [typeFailuresFor_eq_map, List.mem_map]
  constructor
  · rintro ⟨v0, hv0, heq⟩
    cases heq
    rw [mem_dedupFirst, List.mem_map] at hv0
    obtain ⟨r, hr, rfl⟩ := hv0
    exact ⟨⟨r, hr, rfl⟩, rfl⟩
  · rintro ⟨⟨r, hr, rfl⟩, rfl⟩
    exact ⟨rowGet r f, mem_dedupFirst.mpr (List.mem_map.mpr ⟨r, hr, rfl⟩), rfl⟩

/-- Row-level reading of the type-failure report: a deduplicated row's primary
key is listed (necessarily under its own field value) precisely when its field
value violates the constraint. -/
theorem pk_mem_typeFailuresFor {c : FieldConstraint} {f : String} {pk : List String}
    (hpk : pk ≠ []) {rows : List Row} {r : Row} (hr : r ∈ dedupRows pk rows) :
    (∃ v pks, (v, pks) ∈ typeFailuresFor c f pk rows ∧ pkOf pk r ∈ pks) ↔
      c.ok (rowGet r f) = false := by
  constructor
  · rintro ⟨v, pks, hmem, hpk⟩
    obtain ⟨-, rfl⟩ := mem_typeFailuresFor.mp hmem
    rw [List.mem_map] at hpk
    obtain ⟨r0, hr0, hkey⟩ := hpk
    rw [List.mem_filter] at hr0
    obtain ⟨hr0bad, -⟩ := hr0
    unfold badRowsFor at hr0bad
    rw [List.mem_filter] at hr0bad
    obtain ⟨hr0mem, hr0ok⟩ := hr0bad
    have : r0 = r := dedupRows_pk_inj hpk hr0mem hr hkey
    subst this
    simpa using hr0ok
  · intro hbad
    have hrbad : r ∈ badRowsFor c f pk rows := by
      unfold badRowsFor
      rw [List.mem_filter]
      exact ⟨hr, by simp [hbad]⟩
    refine ⟨rowGet r f,
      ((badRowsFor c f pk rows).filter (fun r0 => rowGet r0 f = rowGet r f)).map (pkOf pk),
      mem_typeFailuresFor.mpr ⟨⟨r, hrbad, rfl⟩, rfl⟩, ?_⟩
    rw [List.mem_map]
    exact ⟨r, List.mem_filter.mpr ⟨hrbad, by simp⟩, rfl⟩

theorem mem_find_data_type_failures {s : Schema} {d : DataSet} {t f : String}
    {groups : List (Value × List (List Value))} :
    ((t, f), groups) ∈ find_data_type_failures s d ↔
      ∃ td c, (t, td) ∈ s.tables ∧ (f, c) ∈ td.typeConstraints ∧
        groups = typeFailuresFor c f td.primaryKey (dataGet d t) ∧ groups ≠ [] := by
  unfold find_data_type_failures
  rw [List.mem_flatMap]
  constructor
  · rintro ⟨⟨t0, td⟩, htd, hmem⟩
    rw [List.mem_filterMap] at hmem
    obtain ⟨⟨f0, c⟩, hfc, heq⟩ := hmem
    by_cases hr : typeFailuresFor c f0 td.primaryKey (dataGet d t0) = []
    · rw [if_pos hr] at heq
      exact absurd heq Option.noConfusion
    · rw [if_neg hr] at heq
      obtain ⟨h1, h2⟩ := Prod.mk.injEq .. ▸ Option.some.inj heq
      obtain ⟨rfl, rfl⟩ := Prod.mk.injEq .. ▸ h1
      subst h2
      exact ⟨td, c, htd, hfc, rfl, hr⟩
  · rintro ⟨td, c, htd, hfc, rfl, hne⟩
    refine ⟨(t, td), htd, ?_⟩
    rw [List.mem_filterMap]
    exact ⟨(f, c), hfc, by rw [if_neg hne]⟩

theorem find_data_type_failures_eq_nil {s : Schema} {d : DataSet} :
    find_data_type_failures s d = [] ↔
      ∀ t td, (t, td) ∈ s.tables → ∀ f c, (f, c) ∈ td.typeConstraints →
        ∀ r ∈ dedupRows td.primaryKey (dataGet d t), c.ok (rowGet r f) = true := by
  unfold find_data_type_failures
  rw [List.flatMap_eq_nil_iff]
  constructor
  · intro h t td htd f c hfc r hr
    have := h (t, td) htd
    rw [List.filterMap_eq_nil_iff] at this
    have := this (f, c) hfc
    by_cases hnil : typeFailuresFor c f td.primaryKey (dataGet d t) = []
    · exact typeFailuresFor_eq_nil.mp hnil r hr
    · rw [if_neg hnil] at this
      exact absurd this Option.noConfusion
  · rintro h ⟨t, td⟩ htd
    rw [List.filterMap_eq_nil_iff]
    rintro ⟨f, c⟩ hfc
    rw [if_pos (typeFailuresFor_eq_nil.mpr (h t td htd f c hfc))]

/-! ## Characterisation of the foreign-key report -/

theorem mem_fkFailRows {d : DataSet} {fk : ForeignKey} {r : Row} :
    r ∈ fkFailRows d fk ↔
      r ∈ dataGet d fk.childTable ∧
        pkOf fk.childFields r ∉ keyList fk.parentFields (dataGet d fk.parentTable) := by
  unfold fkFailRows
  rw [List.mem_filter]
  simp

theorem fkEntry_eq_none {s : Schema} {d : DataSet} {v : Verbosity} {fk : ForeignKey} :
    fkEntry s d v fk = none ↔ fkFailRows d fk = [] := by
  unfold fkEntry
  by_cases h : fkFailRows d fk = [] <;> simp [h]

theorem fkEntry_low {s : Schema} {d : DataSet} {fk : ForeignKey}
    (h : fkFailRows d fk ≠ []) :
    fkEntry s d .low fk =
      some (.low (dedupFirst ((fkFailRows d fk).map (pkOf fk.childFields)))
        ((fkFailRows d fk).map (pkOf (tablePk s fk.childTable)))) := by
  unfold fkEntry
  rw [if_neg h]

theorem mem_find_foreign_key_failures {s : Schema} {d : DataSet} {v : Verbosity}
    {key : String × String × List (String × String)} {e : FKEntry} :
    (key, e) ∈ find_foreign_key_failures s d v ↔
      ∃ fk ∈ s.foreignKeys, fkKey fk = key ∧ fkEntry s d v fk = some e := by
  unfold find_foreign_key_failures
  rw [List.mem_filterMap]
  constructor
  · rintro ⟨fk, hfk, heq⟩
    rw [Option.map_eq_some'] at heq
    obtain ⟨e0, he0, heq⟩ := heq
    obtain ⟨h1, h2⟩ := Prod.mk.injEq .. ▸ heq
    subst h1
    subst h2
    exact ⟨fk, hfk, rfl, he0⟩
  · rintro ⟨fk, hfk, rfl, he⟩
    exact ⟨fk, hfk, by rw [he]; rfl⟩

theorem find_foreign_key_failures_eq_nil {s : Schema} {d : DataSet} {v : Verbosity} :
    find_foreign_key_failures s d v = [] ↔
      ∀ fk ∈ s.foreignKeys, ∀ r ∈ dataGet d fk.childTable,
        pkOf fk.childFields r ∈ keyList fk.parentFields (dataGet d fk.parentTable) := by
  unfold find_foreign_key_failures
  rw [List.filterMap_eq_nil_iff]
  constructor
  · intro h fk hfk r hr
    have := h fk hfk
    rw [Option.map_eq_none', fkEntry_eq_none] at this
    by_contra habs
    have : r ∈ fkFailRows d fk := mem_fkFailRows.mpr ⟨hr, habs⟩
    simp_all
  · intro h fk hfk
    rw [Option.map_eq_none', fkEntry_eq_none, List.eq_nil_iff_forall_not_mem]
    intro r hr
    rw [mem_fkFailRows] at hr
    exact hr.2 (h fk hfk r hr.1)

/-! ## Characterisation of the row-predicate report -/

theorem predFailPks_eq_nil {pk : List String} {p : Row → Bool} {rows : List Row} :
    predFailPks pk p rows = [] ↔ ∀ r ∈ dedupRows pk rows, p r = true := by
  unfold predFailPks
  rw [List.map_eq_nil_iff, List.filter_eq_nil_iff]
  constructor
  · intro h r hr
    have := h r hr
    simpa using this
  · intro h r hr
    simp [h r hr]

theorem pk_mem_predFailPks {pk : List String} (hpk : pk ≠ []) {p : Row → Bool}
    {rows : List Row} {r : Row} (hr : r ∈ dedupRows pk rows) :
    pkOf pk r ∈ predFailPks pk p rows ↔ p r = false := by
  unfold predFailPks
  rw [List.mem_map]
  constructor
  · rintro ⟨r0, hr0, hkey⟩
    rw [List.mem_filter] at hr0
    obtain ⟨hr0mem, hr0p⟩ := hr0
    have : r0 = r := dedupRows_pk_inj hpk hr0mem hr hkey
    subst this
    simpa using hr0p
  · intro hp
    exact ⟨r, List.mem_filter.mpr ⟨hr, by simp [hp]⟩, rfl⟩

theorem mem_find_data_row_failures {s : Schema} {d : DataSet} {t pname : String}
    {pks : List (List Value)} :
    ((t, pname), pks) ∈ find_data_row_failures s d ↔
      ∃ td p, (t, td) ∈ s.tables ∧ (pname, p) ∈ td.predicates ∧
        pks = predFailPks td.primaryKey p (dataGet d t) ∧ pks ≠ [] := by
  unfold find_data_row_failures
  rw [List.mem_flatMap]
  constructor
  · rintro ⟨⟨t0, td⟩, htd, hmem⟩
    rw [List.mem_filterMap] at hmem
    obtain ⟨⟨pn, p⟩, hnp, heq⟩ := hmem
    by_cases hr : predFailPks td.primaryKey p (dataGet d t0) = []
    · rw [if_pos hr] at heq
      exact absurd heq Option.noConfusion
    · rw [if_neg hr] at heq
      obtain ⟨h1, h2⟩ := Prod.mk.injEq .. ▸ Option.some.inj heq
      obtain ⟨rfl, rfl⟩ := Prod.mk.injEq .. ▸ h1
      subst h2
      exact ⟨td, p, htd, hnp, rfl, hr⟩
  · rintro ⟨td, p, htd, hnp, rfl, hne⟩
    refine ⟨(t, td), htd, ?_⟩
    rw [List.mem_filterMap]
    exact ⟨(pname, p), hnp, by rw [if_neg hne]⟩

theorem find_data_row_failures_eq_nil {s : Schema} {d : DataSet} :
    find_data_row_failures s d = [] ↔
      ∀ t td, (t, td) ∈ s.tables → ∀ pname p, (pname, p) ∈ td.predicates →
        ∀ r ∈ dedupRows td.primaryKey (dataGet d t), p r = true := by
  unfold find_data_row_failures
  rw [List.flatMap_eq_nil_iff]
  constructor
  · intro h t td htd pname p hnp r hr
    have := h (t, td) htd
    rw [List.filterMap_eq_nil_iff] at this
    have := this (pname, p) hnp
    by_cases hnil : predFailPks td.primaryKey p (dataGet d t) = []
    · exact predFailPks_eq_nil.mp hnil r hr
    · rw [if_neg hnil] at this
      exact absurd this Option.noConfusion
  · rintro h ⟨t, td⟩ htd
    rw [List.filterMap_eq_nil_iff]
    rintro ⟨pname, p⟩ hnp
    rw [if_pos (predFailPks_eq_nil.mpr (h t td htd pname p hnp))]

/-! ## Clean data -/

/-- Modelled from the spec: no table of the data set holds two rows sharing a
(non-empty) primary-key value. -/
def NoDuplicateKeys (s : Schema) (d : DataSet) : Prop :=
  ∀ e ∈ s.tables, e.2.primaryKey ≠ [] →
    (keyList e.2.primaryKey (dataGet d e.1)).Nodup

/-- Modelled from the spec: no row of the data set violates a declared field
type constraint. -/
def NoTypeViolations (s : Schema) (d : DataSet) : Prop :=
  ∀ e ∈ s.tables, ∀ fc ∈ e.2.typeConstraints,
    ∀ r ∈ dataGet d e.1, FieldConstraint.ok fc.2 (rowGet r fc.1) = true

/-- Modelled from the spec: every child row of every declared foreign-key link
cross-references a parent-side key tuple present in the parent table. -/
def NoForeignKeyViolations (s : Schema) (d : DataSet) : Prop :=
  ∀ fk ∈ s.foreignKeys, ∀ r ∈ dataGet d fk.childTable,
    pkOf fk.childFields r ∈ keyList fk.parentFields (dataGet d fk.parentTable)

/-- Modelled from the spec: every declared row predicate holds on every row of
its table. -/
def NoPredicateViolations (s : Schema) (d : DataSet) : Prop :=
  ∀ e ∈ s.tables, ∀ np ∈ e.2.predicates,
    ∀ r ∈ dataGet d e.1, np.2 r = true

/-- A data set is clean when it exhibits none of the four violation
categories. -/
def CleanData (s : Schema) (d : DataSet) : Prop :=
  NoDuplicateKeys s d ∧ NoTypeViolations s d ∧
    NoForeignKeyViolations s d ∧ NoPredicateViolations s d

/-- C1: for every schema and data set, the data is clean — no duplicate
primary keys, no type-constraint violations, no foreign-key violations and no
predicate violations — exactly when each of the four operations
`find_duplicates`, `find_data_type_failures`, `find_foreign_key_failures` (at
either verbosity) and `find_data_row_failures` returns the empty mapping; so
emptiness of all four reports is equivalent to the data being clean. -/
theorem clean_data_iff_reports_empty (s : Schema) (d : DataSet) (v : Verbosity) :
    CleanData s d ↔
      (find_duplicates s d = [] ∧ find_data_type_failures s d = [] ∧
        find_foreign_key_failures s d v = [] ∧ find_data_row_failures s d = []) := by
  constructor
  · rintro ⟨hdup, htype, hfk, hpred⟩
    refine ⟨?_, ?_, ?_, ?_⟩
    · exact find_duplicates_eq_nil.mpr fun t td htd hpk => hdup (t, td) htd hpk
    · refine find_data_type_failures_eq_nil.mpr ?_
      intro t td htd f c hfc r hr
      exact htype (t, td) htd (f, c) hfc r (mem_of_mem_dedupRows hr)
    · exact find_foreign_key_failures_eq_nil.mpr hfk
    · refine find_data_row_failures_eq_nil.mpr ?_
      intro t td htd pname p hnp r hr
      exact hpred (t, td) htd (pname, p) hnp r (mem_of_mem_dedupRows hr)
  · rintro ⟨h1, h2, h3, h4⟩
    have hdup : NoDuplicateKeys s d := by
      intro e he hpk
      exact find_duplicates_eq_nil.mp h1 e.1 e.2 he hpk
    have hded : ∀ e ∈ s.tables,
        dedupRows e.2.primaryKey (dataGet d e.1) = dataGet d e.1 := by
      intro e he
      by_cases hpk : e.2.primaryKey = []
      · unfold dedupRows
        rw [if_pos hpk]
      · exact dedupRows_eq_self (hdup e he hpk)
    refine ⟨hdup, ?_, find_foreign_key_failures_eq_nil.mp h3, ?_⟩
    · intro e he fc hfc r hr
      exact find_data_type_failures_eq_nil.mp h2 e.1 e.2 he fc.1 fc.2 hfc r
        ((hded e he).symm ▸ hr)
    · intro e he np hnp r hr
      exact find_data_row_failures_eq_nil.mp h4 e.1 e.2 he np.1 np.2 hnp r
        ((hded e he).symm ▸ hr)

/-- C2: `find_duplicates` reports, for each table with a non-empty primary
key, exactly the key tuples occurring in more than one row, each with its
total occurrence count; a table whose keys are all distinct contributes
nothing, a table with an empty primary key is skipped (its reports never
appear), and on the dirty diet data the report is exactly
nutrition_quantities → (milk, fat) → 2. -/
theorem find_duplicates_spec :
    (∀ pk rows k n, (k, n) ∈ dupReport pk rows ↔
        (countKey k (keyList pk rows) = n ∧ 1 < n)) ∧
    (∀ s d t rep, (t, rep) ∈ find_duplicates s d ↔
        ∃ td, (t, td) ∈ s.tables ∧ td.primaryKey ≠ [] ∧
          rep = dupReport td.primaryKey (dataGet d t) ∧ rep ≠ []) ∧
    (∀ pk rows, (keyList pk rows).Nodup → dupReport pk rows = []) ∧
    find_duplicates dietSchema dirtyDietData =
      [("nutrition_quantities", [([.str "milk", .str "fat"], 2)])] :=
  ⟨fun _ _ _ _ => mem_dupReport, fun _ _ _ _ => mem_find_duplicates,
    fun _ _ h => dupReport_eq_nil.mpr h, by decide⟩

/-- Witness for C2 at the dirty diet data: the (milk, fat) key of
nutrition_quantities occurs exactly twice and is reported with count 2, and
the foods table, whose keys are all distinct, reports nothing. -/
theorem find_duplicates_spec_witness :
    ([Value.str "milk", Value.str "fat"], 2) ∈
      dupReport ["Food", "Category"] (dataGet dirtyDietData "nutrition_quantities") ∧
    dupReport ["Name"] (dataGet dirtyDietData "foods") = [] :=
  ⟨(find_duplicates_spec.1 _ _ _ _).mpr (by decide),
    find_duplicates_spec.2.2.1 ["Name"] (dataGet dirtyDietData "foods") (by decide)⟩

/-- C3: the type-failure report holds, for each constrained (table, field)
pair with failures, groups keyed by distinct bad values, each listing the
primary keys of the offending deduplicated rows sharing that value; fields
with no failures are omitted (every entry arises from a non-empty failure
set); a deduplicated row's key is listed exactly when its value violates the
constraint; and on the dirty diet data the report flags Quantity of
nutrition_quantities with bad value "" and offending keys
(macaroni, calories) and (chicken, fat). -/
theorem find_data_type_failures_spec :
    (∀ s d t f groups, ((t, f), groups) ∈ find_data_type_failures s d ↔
        ∃ td c, (t, td) ∈ s.tables ∧ (f, c) ∈ td.typeConstraints ∧
          groups = typeFailuresFor c f td.primaryKey (dataGet d t) ∧ groups ≠ []) ∧
    (∀ c f pk rows, ((typeFailuresFor c f pk rows).map Prod.fst).Nodup) ∧
    (∀ c f pk rows v pks, (v, pks) ∈ typeFailuresFor c f pk rows ↔
        ((∃ r ∈ badRowsFor c f pk rows, rowGet r f = v) ∧
          pks = ((badRowsFor c f pk rows).filter
            (fun r => rowGet r f = v)).map (pkOf pk))) ∧
    (∀ c f (pk : List String), pk ≠ [] → ∀ rows r, r ∈ dedupRows pk rows →
        ((∃ v pks, (v, pks) ∈ typeFailuresFor c f pk rows ∧ pkOf pk r ∈ pks) ↔
          FieldConstraint.ok c (rowGet r f) = false)) ∧
    find_data_type_failures dietSchema dirtyDietData =
      [(("nutrition_quantities", "Quantity"),
        [(.str "", [[.str "macaroni", .str "calories"],
          [.str "chicken", .str "fat"]])])] :=
  ⟨fun _ _ _ _ _ => mem_find_data_type_failures,
    fun c f pk rows => nodup_typeFailuresFor_values c f pk rows,
    fun _ _ _ _ _ _ => mem_typeFailuresFor,
    fun _ _ _ hpk _ _ hr => pk_mem_typeFailuresFor hpk hr, by decide⟩

/-- Witness for C3 at the dirty diet data: the dirty (chicken, fat) row with
empty-string Quantity is a deduplicated row of nutrition_quantities, and its
primary key is listed in the Quantity type-failure groups. -/
theorem find_data_type_failures_spec_witness :
    ∃ v pks,
      (v, pks) ∈ typeFailuresFor (.numeric 0 (10 ^ 12) false) "Quantity"
        ["Food", "Category"] (dataGet dirtyDietData "nutrition_quantities") ∧
      pkOf ["Food", "Category"] (nqRow "chicken" "fat" (.str "")) ∈ pks :=
  (find_data_type_failures_spec.2.2.2.1 (.numeric 0 (10 ^ 12) false) "Quantity"
    ["Food", "Category"] (by decide)
    (dataGet dirtyDietData "nutrition_quantities")
    (nqRow "chicken" "fat" (.str "")) (by decide)).mpr (by decide)

/-- C5: the row-failure report lists, under (table, predicate name), exactly
the primary keys of the deduplicated rows on which the predicate is false
(entries exist only for predicates with failures), a deduplicated row's key is
listed exactly when the predicate fails on its field values, and on the dirty
diet data the report holds exactly the key "fat" under
(categories, Min Max Check), coming from the row (fat, 70, 65). -/
theorem find_data_row_failures_spec :
    (∀ s d t pname pks, ((t, pname), pks) ∈ find_data_row_failures s d ↔
        ∃ td p, (t, td) ∈ s.tables ∧ (pname, p) ∈ td.predicates ∧
          pks = predFailPks td.primaryKey p (dataGet d t) ∧ pks ≠ []) ∧
    (∀ (pk : List String), pk ≠ [] → ∀ (p : Row → Bool) rows r,
        r ∈ dedupRows pk rows →
        (pkOf pk r ∈ predFailPks pk p rows ↔ p r = false)) ∧
    minMaxCheck (categoryRow "fat" 70 65) = false ∧
    find_data_row_failures dietSchema dirtyDietData =
      [(("categories", "Min Max Check"), [[.str "fat"]])] :=
  ⟨fun _ _ _ _ _ => mem_find_data_row_failures,
    fun _ hpk _ _ _ hr => pk_mem_predFailPks hpk hr, by decide, by decide⟩

/-- Witness for C5 at the dirty diet data: the categories row (fat, 70, 65)
is a deduplicated row, the Min Max Check predicate fails on it, and its key
"fat" is listed. -/
theorem find_data_row_failures_spec_witness :
    pkOf ["Name"] (categoryRow "fat" 70 65) ∈
      predFailPks ["Name"] minMaxCheck (dataGet dirtyDietData "categories") :=
  (find_data_row_failures_spec.2.1 ["Name"] (by decide) minMaxCheck
    (dataGet dirtyDietData "categories") (categoryRow "fat" 70 65)
    (by decide)).mpr (by decide)

/-! ## Foreign-key claim: counterexample data and amended statement -/

/-- A two-table schema for probing the foreign-key check: child table c with
primary key K and data field F, parent table p keyed P, and the link
c.F → p.P. -/
def fkCexSchema : Schema where
  tables :=
    [ ("c",
        { fields := ["K", "F"], primaryKey := ["K"],
          typeConstraints := [], predicates := [] }),
      ("p",
        { fields := ["P"], primaryKey := ["P"],
          typeConstraints := [], predicates := [] }) ]
  foreignKeys :=
    [ { childTable := "c", childFields := ["F"],
        parentTable := "p", parentFields := ["P"] } ]

/-- The foreign-key link of `fkCexSchema`. -/
def fkCexLink : ForeignKey :=
  { childTable := "c", childFields := ["F"], parentTable := "p", parentFields := ["P"] }

/-- A child row that cross-references the parent successfully (F = 1 is
present in p) but shares its primary key K = 0 with a failing row. -/
def fkCexGoodRow : Row := [("K", .num 0), ("F", .num 1)]

/-- A child row that fails to cross-reference (F = 2 is absent from p). -/
def fkCexBadRow : Row := [("K", .num 0), ("F", .num 2)]

/-- Data in which two child rows share primary key K = 0: one
cross-references fine, the other does not. -/
def fkCexData : DataSet :=
  [ ("c", [fkCexBadRow, fkCexGoodRow]),
    ("p", [[("P", .num 1)]]) ]

/-- C4 counterexample: in `fkCexData` the child row `fkCexGoodRow` has a
foreign-key value present among the parent key tuples, yet its primary key
[0] appears in the low-verbosity report for the link (it is contributed by
the other row with the same key), refuting the claimed "if and only if" for
arbitrary data sets. -/
theorem fk_claim_counterexample :
    fkCexGoodRow ∈ dataGet fkCexData "c" ∧
    pkOf fkCexLink.childFields fkCexGoodRow ∈
      keyList fkCexLink.parentFields (dataGet fkCexData "p") ∧
    find_foreign_key_failures fkCexSchema fkCexData .low =
      [(("c", "p", [("F", "P")]), .low [[.num 2]] [[.num 0]])] ∧
    pkOf (tablePk fkCexSchema "c") fkCexGoodRow = [.num 0] := by decide

/-- The offending child primary keys of one link, as listed by the
low-verbosity report. -/
def fkLowPks (s : Schema) (d : DataSet) (fk : ForeignKey) : List (List Value) :=
  (fkFailRows d fk).map (pkOf (tablePk s fk.childTable))

/-- C4 (amended): every report entry comes from a declared link with a
non-empty set of failing child rows; at low verbosity the entry collapses to
the distinct failing values together with the offending child primary keys; a
child row whose field-tuple is present among the parent key tuples is never
among the failing rows; and for data whose child table has pairwise-distinct
primary keys (as for loaded TicDat data), a child row's primary key appears
in the link's low-verbosity key list if and only if its field-tuple is absent
from the parent key tuples. -/
theorem find_foreign_key_failures_spec :
    (∀ s d v key e, (key, e) ∈ find_foreign_key_failures s d v ↔
        ∃ fk ∈ s.foreignKeys, fkKey fk = key ∧ fkEntry s d v fk = some e) ∧
    (∀ s d fk, fkFailRows d fk ≠ [] →
        fkEntry s d .low fk =
          some (.low (dedupFirst ((fkFailRows d fk).map (pkOf fk.childFields)))
            (fkLowPks s d fk))) ∧
    (∀ d fk r, r ∈ dataGet d fk.childTable →
        pkOf fk.childFields r ∈ keyList fk.parentFields (dataGet d fk.parentTable) →
        r ∉ fkFailRows d fk) ∧
    (∀ s d fk r, r ∈ dataGet d fk.childTable →
        (keyList (tablePk s fk.childTable) (dataGet d fk.childTable)).Nodup →
        (pkOf (tablePk s fk.childTable) r ∈ fkLowPks s d fk ↔
          pkOf fk.childFields r ∉
            keyList fk.parentFields (dataGet d fk.parentTable))) := by
  refine ⟨fun _ _ _ _ _ => mem_find_foreign_key_failures,
    fun s d fk h => fkEntry_low h, ?_, ?_⟩
  · intro d fk r _ hpresent hmem
    exact (mem_fkFailRows.mp hmem).2 hpresent
  · intro s d fk r hr hnodup
    unfold fkLowPks
    constructor
    · intro hmem
      rw [List.mem_map] at hmem
      obtain ⟨r0, hr0, hkey⟩ := hmem
      have hr0c : r0 ∈ dataGet d fk.childTable := (mem_fkFailRows.mp hr0).1
      have : r0 = r := List.inj_on_of_nodup_map hnodup hr0c hr hkey
      subst this
      exact (mem_fkFailRows.mp hr0).2
    · intro habsent
      rw [List.mem_map]
      exact ⟨r, mem_fkFailRows.mpr ⟨hr, habsent⟩, rfl⟩

/-- Child data for the amended foreign-key claim's witness: two child rows
with distinct primary keys, one failing (F = 2) and one cross-referencing
fine (F = 1). -/
def fkWitnessData : DataSet :=
  [ ("c", [fkCexBadRow, [("K", .num 1), ("F", .num 1)]]),
    ("p", [[("P", .num 1)]]) ]

/-- Witness for the amended C4: with distinct child keys, the failing row's
key [0] is listed, and the cross-referencing row is not among the failing
rows. -/
theorem find_foreign_key_failures_spec_witness :
    pkOf (tablePk fkCexSchema "c") fkCexBadRow ∈
      fkLowPks fkCexSchema fkWitnessData fkCexLink ∧
    [("K", .num 1), ("F", .num 1)] ∉ fkFailRows fkWitnessData fkCexLink :=
  ⟨(find_foreign_key_failures_spec.2.2.2 fkCexSchema fkWitnessData fkCexLink
      fkCexBadRow (by decide) (by decide)).mpr (by decide),
    find_foreign_key_failures_spec.2.2.1 fkWitnessData fkCexLink
      [("K", .num 1), ("F", .num 1)] (by decide) (by decide)⟩

/-! ## Monotonicity of the type-failure check -/

theorem dedupRowsAux_append_fresh {pk : List String} {r : Row} {rows : List Row}
    (hfresh : pkOf pk r ∉ keyList pk rows) :
    ∀ {seen : List (List Value)}, pkOf pk r ∉ seen →
      dedupRowsAux pk seen (rows ++ [r]) = dedupRowsAux pk seen rows ++ [r] := by
  induction rows with
  | nil =>
    intro seen hs
    simp [dedupRowsAux, if_neg hs]
  | cons r0 rs ih =>
    intro seen hs
    have hfresh' := hfresh
    simp only [keyList, List.map_cons, List.mem_cons] at hfresh'
    push_neg at hfresh'
    obtain ⟨h0, hfr⟩ := hfresh'
    simp only [List.cons_append, dedupRowsAux]
    by_cases hc : pkOf pk r0 ∈ seen
    · rw [if_pos hc, if_pos hc]
      exact ih hfr hs
    · rw [if_neg hc, if_neg hc, List.cons_append]
      congr 1
      exact ih hfr (fun hmem => (List.mem_cons.mp hmem).elim h0 hs)

theorem dedupRows_append_fresh {pk : List String} {r : Row} {rows : List Row}
    (hpk : pk ≠ []) (hfresh : pkOf pk r ∉ keyList pk rows) :
    dedupRows pk (rows ++ [r]) = dedupRows pk rows ++ [r] := by
  unfold dedupRows
  rw [if_neg hpk, if_neg hpk]
  exact dedupRowsAux_append_fresh hfresh (List.not_mem_nil _)

/-- The primary keys flagged by the type-failure check of one field, in
deduplicated-row order (the concatenation of the report's groups lists the
same keys, grouped by value). -/
def typeFailPks (c : FieldConstraint) (f : String) (pk : List String)
    (rows : List Row) : List (List Value) :=
  (badRowsFor c f pk rows).map (pkOf pk)

/-- C6 counterexample: appending the row (K = 1, F = "") — whose F value
violates the numeric constraint — to a table already holding a row keyed
K = 1 leaves the type-failure report unchanged (empty), because the scan
deduplicates by primary key and keeps the earlier clean representative; the
report does not strictly enlarge. -/
def monoCexTD : TableDef where
  fields := ["K", "F"]
  primaryKey := ["K"]
  typeConstraints := [("F", .numeric 0 100 false)]
  predicates := []

/-- The one-table schema of the monotonicity counterexample. -/
def monoCexSchema : Schema where
  tables := [("t", monoCexTD)]
  foreignKeys := []

/-- The clean row keyed K = 1 of the monotonicity counterexample. -/
def monoCexRow : Row := [("K", .num 1), ("F", .num 5)]

/-- The violating row, sharing primary key K = 1. -/
def monoCexBadRow : Row := [("K", .num 1), ("F", .str "")]

/-- The counterexample data before the bad row is added. -/
def monoCexData : DataSet := [("t", [monoCexRow])]

/-- The counterexample data after the bad row is appended. -/
def monoCexDataAdded : DataSet := [("t", [monoCexRow, monoCexBadRow])]

/-- C6 counterexample theorem: the appended row violates the Quantity-style
constraint, yet the type-failure report after the addition equals the report
before it (both empty): adding a violating row does not strictly enlarge the
report when its primary key already occurs. -/
theorem type_failures_monotone_counterexample :
    FieldConstraint.ok (.numeric 0 100 false) (rowGet monoCexBadRow "F") = false ∧
    find_data_type_failures monoCexSchema monoCexDataAdded =
      find_data_type_failures monoCexSchema monoCexData ∧
    find_data_type_failures monoCexSchema monoCexData = [] :=
  ⟨by decide, by decide, by decide⟩

/-- C6 (amended): the type-failure check is monotonic for fresh-keyed rows:
appending one row whose value for a constrained field violates the constraint
and whose primary key does not yet occur in the table extends the field's
flagged key list by exactly that row's key (a strict enlargement) and leaves
the field's report entry non-empty; and removing all rows with bad values for
the field empties the field's report, so the entry is absent. -/
theorem find_data_type_failures_monotone_spec :
    (∀ c f (pk : List String) rows (r : Row), pk ≠ [] →
        FieldConstraint.ok c (rowGet r f) = false →
        pkOf pk r ∉ keyList pk rows →
        typeFailPks c f pk (rows ++ [r]) =
          typeFailPks c f pk rows ++ [pkOf pk r] ∧
        typeFailuresFor c f pk (rows ++ [r]) ≠ []) ∧
    (∀ c f (pk : List String) (rows : List Row),
        typeFailuresFor c f pk
          (rows.filter (fun r => FieldConstraint.ok c (rowGet r f))) = []) := by
  constructor
  · intro c f pk rows r hpk hbad hfresh
    have hded := dedupRows_append_fresh hpk hfresh
    have hbadrows : badRowsFor c f pk (rows ++ [r]) = badRowsFor c f pk rows ++ [r] := by
      unfold badRowsFor
      rw [hded, List.filter_append]
      simp [hbad]
    constructor
    · unfold typeFailPks
      rw [hbadrows, List.map_append]
      rfl
    · intro hnil
      have hall := typeFailuresFor_eq_nil.mp hnil r ?_
      · rw [hbad] at hall
        exact Bool.false_ne_true hall
      · rw [hded]
        exact List.mem_append_right _ (List.mem_cons_self _ _)
  · intro c f pk rows
    refine typeFailuresFor_eq_nil.mpr ?_
    intro r hr
    have := mem_of_mem_dedupRows hr
    exact (List.mem_filter.mp this).2

/-- Witness for the amended C6: appending the fresh-keyed violating row
(K = 2, F = "") to the one-row counterexample table extends the flagged key
list by exactly [2], and filtering the bad rows out of the extended table
empties the field's failures. -/
theorem find_data_type_failures_monotone_spec_witness :
    typeFailPks (.numeric 0 100 false) "F" ["K"]
        ([monoCexRow] ++ [[("K", .num 2), ("F", .str "")]]) =
      typeFailPks (.numeric 0 100 false) "F" ["K"] [monoCexRow] ++
        [pkOf ["K"] [("K", .num 2), ("F", .str "")]] ∧
    typeFailuresFor (.numeric 0 100 false) "F" ["K"]
      (([monoCexRow, [("K", .num 2), ("F", .str "")]]).filter
        (fun r => FieldConstraint.ok (.numeric 0 100 false) (rowGet r "F"))) = [] :=
  ⟨(find_data_type_failures_monotone_spec.1 (.numeric 0 100 false) "F" ["K"]
      [monoCexRow] [("K", .num 2), ("F", .str "")]
      (by decide) (by decide) (by decide)).1,
    find_data_type_failures_monotone_spec.2 (.numeric 0 100 false) "F" ["K"]
      [monoCexRow, [("K", .num 2), ("F", .str "")]]⟩

/-! ## Error classes and their timing -/

/-- Modelled from the spec: whether a table definition only references its own
declared fields (primary key and constrained fields must be declared). -/
def fieldsKnown (td : TableDef) : Bool :=
  td.primaryKey.all (fun f => td.fields.contains f) &&
    (td.typeConstraints.all (fun fc => td.fields.contains fc.1)) &&
    (td.predicates.all (fun _ => true))

/-- Modelled from the spec: whether a foreign-key link references existing
tables, declared fields, and pairs child and parent field tuples of equal
arity. -/
def fkConfigOk (s : Schema) (fk : ForeignKey) : Bool :=
  match List.lookup fk.childTable s.tables, List.lookup fk.parentTable s.tables with
  | some ctd, some ptd =>
    decide (fk.childFields.length = fk.parentFields.length) &&
      fk.childFields.all (fun f => ctd.fields.contains f) &&
      fk.parentFields.all (fun f => ptd.fields.contains f)
  | _, _ => false

/-- Modelled from the spec: a schema is well configured when every table
definition references only known fields and every foreign key is consistent. -/
def schemaConfigOk (s : Schema) : Bool :=
  s.tables.all (fun td => fieldsKnown td.2) && s.foreignKeys.all (fkConfigOk s)

/-- A constructed checker: a validated schema. -/
structure Checker where
  schema : Schema

/-- Modelled from the spec: building the checker validates the schema and
raises a configuration error — before any data is scanned — when the schema
references an unknown table or field or declares an arity-mismatched foreign
key. -/
def mkChecker (s : Schema) : Except String Checker :=
  if schemaConfigOk s then .ok ⟨s⟩
  else .error "configuration error: schema references unknown table or field, or foreign-key arity mismatch"

/-- Modelled from the spec: the raw input handed to an operation: either data
in the expected table-to-rows shape, or something else entirely. -/
inductive InputData where
  | tables (d : DataSet)
  | notTabular (description : String)

/-- Modelled from the spec: shape validation performed by every operation
before any scanning. -/
def checkShape : InputData → Except String DataSet
  | .tables d => .ok d
  | .notTabular desc => .error ("input-shape error: " ++ desc)

/-- `find_duplicates` behind construction-time and shape validation. -/
def findDuplicatesChecked (c : Checker) (i : InputData) :
    Except String (List (String × List (List Value × Nat))) :=
  (checkShape i).map (find_duplicates c.schema)

/-- `find_data_type_failures` behind construction-time and shape validation. -/
def findDataTypeFailuresChecked (c : Checker) (i : InputData) :
    Except String (List ((String × String) × List (Value × List (List Value)))) :=
  (checkShape i).map (find_data_type_failures c.schema)

/-- `find_foreign_key_failures` behind construction-time and shape
validation. -/
def findForeignKeyFailuresChecked (c : Checker) (i : InputData) (v : Verbosity) :
    Except String (List ((String × String × List (String × String)) × FKEntry)) :=
  (checkShape i).map (fun d => find_foreign_key_failures c.schema d v)

/-- `find_data_row_failures` behind construction-time and shape validation. -/
def findDataRowFailuresChecked (c : Checker) (i : InputData) :
    Except String (List ((String × String) × List (List Value))) :=
  (checkShape i).map (find_data_row_failures c.schema)

/-- C7: the three error classes have distinct timing: a misconfigured schema
(unknown table or field, or arity-mismatched foreign key) makes `mkChecker`
fail at construction time, before any data is seen, while a well-configured
schema constructs; non-tabular input makes every operation fail without
producing any partial report; and on tabular input every operation succeeds,
returning in one value the fully enumerated report of the corresponding pure
check — data-quality issues are never raised as errors. -/
theorem error_partition_spec :
    (∀ s, schemaConfigOk s = false → ∃ msg, mkChecker s = .error msg) ∧
    (∀ s, schemaConfigOk s = true → mkChecker s = .ok ⟨s⟩) ∧
    (∀ c desc, (∃ m1, findDuplicatesChecked c (.notTabular desc) = .error m1) ∧
      (∃ m2, findDataTypeFailuresChecked c (.notTabular desc) = .error m2) ∧
      (∀ v, ∃ m3, findForeignKeyFailuresChecked c (.notTabular desc) v = .error m3) ∧
      (∃ m4, findDataRowFailuresChecked c (.notTabular desc) = .error m4)) ∧
    (∀ c d, findDuplicatesChecked c (.tables d) = .ok (find_duplicates c.schema d) ∧
      findDataTypeFailuresChecked c (.tables d) =
        .ok (find_data_type_failures c.schema d) ∧
      (∀ v, findForeignKeyFailuresChecked c (.tables d) v =
        .ok (find_foreign_key_failures c.schema d v)) ∧
      findDataRowFailuresChecked c (.tables d) =
        .ok (find_data_row_failures c.schema d)) := by
  refine ⟨?_, ?_, fun c desc => ⟨⟨_, rfl⟩, ⟨_, rfl⟩,
    fun v => ⟨_, rfl⟩, ⟨_, rfl⟩⟩, fun c d => ⟨rfl, rfl, fun v => rfl, rfl⟩⟩
  · intro s h
    unfold mkChecker
    rw [h]
    exact ⟨_, rfl⟩
  · intro s h
    unfold mkChecker
    rw [h]
    rfl

/-- A schema whose single foreign key pairs a two-field child tuple with a
one-field parent tuple: an arity mismatch. -/
def badAritySchema : Schema where
  tables :=
    [ ("c",
        { fields := ["A", "B"], primaryKey := ["A"],
          typeConstraints := [], predicates := [] }),
      ("p",
        { fields := ["P"], primaryKey := ["P"],
          typeConstraints := [], predicates := [] }) ]
  foreignKeys :=
    [ { childTable := "c", childFields := ["A", "B"],
        parentTable := "p", parentFields := ["P"] } ]

/-- Witness for C7: the arity-mismatched schema fails at construction, the
diet schema constructs, and on the constructed diet checker non-tabular input
errors while the dirty diet data is processed to the full duplicate report. -/
theorem error_partition_spec_witness :
    (∃ msg, mkChecker badAritySchema = .error msg) ∧
    mkChecker dietSchema = .ok ⟨dietSchema⟩ ∧
    (∃ m1, findDuplicatesChecked ⟨dietSchema⟩ (.notTabular "a string, not tables") =
      .error m1) ∧
    findDuplicatesChecked ⟨dietSchema⟩ (.tables dirtyDietData) =
      .ok (find_duplicates dietSchema dirtyDietData) :=
  ⟨error_partition_spec.1 badAritySchema (by decide),
    error_partition_spec.2.1 dietSchema (by decide),
    (error_partition_spec.2.2.1 ⟨dietSchema⟩ "a string, not tables").1,
    (error_partition_spec.2.2.2 ⟨dietSchema⟩ dirtyDietData).1⟩

/-! ## The toehold scenario: trivially true constraints in an optimization
model -/

/-- Modelled from the spec: the argument a caller hands to
`Model.add_constraint`: either a genuine algebraic constraint (modelled as a
single continuous variable bounded above by a constant, the shape the toehold
notebook builds) or a plain boolean, which is what a comparison containing no
model variable (such as 0 <= 300) evaluates to before the library ever sees
it. -/
inductive CtArg where
  | linear (varName : String) (rhs : ℚ)
  | boolLit (b : Bool)

/-- Modelled from the spec: a constraint stored in the model: a linear
constraint, or the trivially-feasible / trivially-infeasible placeholders the
library substitutes for constant comparisons. -/
inductive StoredCt where
  | linear (varName : String) (rhs : ℚ)
  | trivialFeasible
  | trivialInfeasible
deriving DecidableEq, Repr

/-- Modelled from the spec: an optimization model: its variables and its
named constraints in insertion order. -/
structure Model where
  varNames : List String
  cts : List (String × StoredCt)

/-- Modelled from the spec: `Model.add_constraint` accepts every argument
without raising: a genuine constraint is stored as given, and a plain boolean
True — a trivially true comparison — is silently stored as a
trivially-feasible constraint (False as trivially-infeasible). -/
def Model.add_constraint (m : Model) (arg : CtArg) (ctname : String) :
    Except String Model :=
  match arg with
  | .linear v rhs => .ok { m with cts := m.cts ++ [(ctname, .linear v rhs)] }
  | .boolLit true => .ok { m with cts := m.cts ++ [(ctname, .trivialFeasible)] }
  | .boolLit false => .ok { m with cts := m.cts ++ [(ctname, .trivialInfeasible)] }

/-- Modelled from the spec: constraint retrieval by insertion index. -/
def Model.get_constraint_by_index (m : Model) (i : Nat) : Option StoredCt :=
  (m.cts.get? i).map Prod.snd

/-- Modelled from the spec: constraint retrieval by name. -/
def Model.get_constraint_by_name (m : Model) (n : String) : Option StoredCt :=
  List.lookup n m.cts

theorem lookup_append_fresh {β : Type} {n : String} {v : β}
    {l : List (String × β)} (h : n ∉ l.map Prod.fst) :
    List.lookup n (l ++ [(n, v)]) = some v := by
  induction l with
  | nil => simp [List.lookup]
  | cons a l ih =>
    have hne : a.1 ≠ n := by
      intro he
      exact h (List.mem_map.mpr ⟨a, List.mem_cons_self _ _, he⟩)
    have hrest : n ∉ l.map Prod.fst := by
      intro hm
      rw [List.mem_map] at hm
      obtain ⟨e, he, hee⟩ := hm
      exact h (List.mem_map.mpr ⟨e, List.mem_cons_of_mem _ he, hee⟩)
    have hbeq : (n == a.1) = false := beq_eq_false_iff_ne.mpr (fun he => hne he.symm)
    rw [List.cons_append, List.lookup, hbeq]
    exact ih hrest

/-- C8: handing a trivially true constraint (a comparison containing no model
variable, already evaluated to True) to `Model.add_constraint` raises no
exception: the call succeeds, and the resulting model holds a
trivially-feasible constraint retrievable both at the next index and under
the supplied (fresh) name. -/
theorem add_trivially_true_constraint (m : Model) (n : String)
    (hn : n ∉ m.cts.map Prod.fst) :
    ∃ m2, m.add_constraint (.boolLit true) n = .ok m2 ∧
      m2.get_constraint_by_index m.cts.length = some .trivialFeasible ∧
      m2.get_constraint_by_name n = some .trivialFeasible := by
  refine ⟨{ m with cts := m.cts ++ [(n, .trivialFeasible)] }, rfl, ?_, ?_⟩
  · unfold Model.get_constraint_by_index
    rw [show (m.cts ++ [(n, StoredCt.trivialFeasible)]).get? m.cts.length =
      some (n, StoredCt.trivialFeasible) from ?_]
    · rfl
    · rw [List.get?_eq_getElem?]
      exact List.getElem?_concat_length ..
  · exact lookup_append_fresh hn

/-- The model the toehold notebook builds before the trivially true
constraint is added: one variable goodstuff and the constraint
c1: goodstuff <= 100. -/
def toeholdModel : Model where
  varNames := ["goodstuff"]
  cts := [("c1", .linear "goodstuff" 100)]

/-- Witness for C8 at the toehold notebook model: adding 0 <= 300 (already
True) under the name the notebook uses succeeds, and the constraint is found
trivially feasible both at index 1 and by that name. -/
theorem add_trivially_true_constraint_witness :
    ∃ m2, toeholdModel.add_constraint (.boolLit true)
        "not_going_to_be_added_to_model" = .ok m2 ∧
      m2.get_constraint_by_index toeholdModel.cts.length =
        some .trivialFeasible ∧
      m2.get_constraint_by_name "not_going_to_be_added_to_model" =
        some .trivialFeasible :=
  add_trivially_true_constraint toeholdModel "not_going_to_be_added_to_model"
    (by decide)

/-! ## Loading into the dict-of-dict TicDat representation -/

/-- The row stored under a key after dict-style assignment: the last row of
the table carrying that key (later assignments overwrite earlier ones). -/
def lastRowWith (pk : List String) (k : List Value) (rows : List Row) : Row :=
  ((rows.filter (fun r => pkOf pk r = k)).getLast?).getD []

/-- Modelled from the spec: loading one table into the dict-of-dict TicDat
representation: rows are assigned into a dict keyed by primary key, so each
distinct key (in first-appearance order) keeps a single row — the last one
assigned; tables without a primary key keep their rows as a list. -/
def loadTable (pk : List String) (rows : List Row) : List Row :=
  if pk = [] then rows
  else (dedupFirst (keyList pk rows)).map (fun k => lastRowWith pk k rows)

/-- Modelled from the spec: `create_tic_dat` loads every schema table of the
raw data into the dict-of-dict representation. -/
def create_tic_dat (s : Schema) (d : DataSet) : DataSet :=
  s.tables.map fun td => (td.1, loadTable td.2.primaryKey (dataGet d td.1))

theorem pkOf_lastRowWith {pk : List String} {k : List Value} {rows : List Row}
    (h : k ∈ keyList pk rows) : pkOf pk (lastRowWith pk k rows) = k := by
  unfold lastRowWith
  have hne : rows.filter (fun r => pkOf pk r = k) ≠ [] := by
    rw [keyList, List.mem_map] at h
    obtain ⟨r, hr, rfl⟩ := h
    intro hnil
    have : r ∈ rows.filter (fun r0 => pkOf pk r0 = pkOf pk r) :=
      List.mem_filter.mpr ⟨hr, by simp⟩
    rw [hnil] at this
    exact List.not_mem_nil r this
  rw [List.getLast?_eq_getLast _ hne]
  simp only [Option.getD_some]
  have hmem := List.getLast_mem hne
  have hfil := (List.mem_filter.mp hmem).2
  simpa using hfil

theorem keyList_loadTable {pk : List String} (hpk : pk ≠ []) (rows : List Row) :
    keyList pk (loadTable pk rows) = dedupFirst (keyList pk rows) := by
  unfold loadTable
  rw [if_neg hpk]
  rw [show keyList pk ((dedupFirst (keyList pk rows)).map fun k => lastRowWith pk k rows) =
    ((dedupFirst (keyList pk rows)).map fun k => lastRowWith pk k rows).map (pkOf pk) from rfl]
  rw [List.map_map]
  have h : ∀ k ∈ dedupFirst (keyList pk rows),
      (pkOf pk ∘ fun k0 => lastRowWith pk k0 rows) k = k := by
    intro k hk
    exact pkOf_lastRowWith (mem_dedupFirst.mp hk)
  rw [List.map_congr_left h]
  exact List.map_id _

theorem lookup_map_entry {β γ : Type} {l : List (String × β)} {t : String} {b : β}
    (hn : (l.map Prod.fst).Nodup) (hmem : (t, b) ∈ l) (g : String × β → γ) :
    List.lookup t (l.map (fun e => (e.1, g e))) = some (g (t, b)) := by
  induction l with
  | nil => cases hmem
  | cons a l ih =>
    rw [List.map_cons, List.lookup]
    rcases List.mem_cons.mp hmem with rfl | hmem'
    · rw [show ((t, b).1 == (t, b).1) = true from beq_self_eq_true _]
    · have hhead : a.1 ∉ l.map Prod.fst := by
        rw [List.map_cons, List.nodup_cons] at hn
        exact hn.1
      have hne : a.1 ≠ t := by
        intro he
        exact hhead (he ▸ List.mem_map.mpr ⟨(t, b), hmem', rfl⟩)
      have hbeq : (t == a.1) = false := beq_eq_false_iff_ne.mpr (fun he => hne he.symm)
      rw [hbeq]
      refine ih ?_ hmem'
      rw [List.map_cons, List.nodup_cons] at hn
      exact hn.2

theorem dataGet_create_tic_dat {s : Schema} {d : DataSet} {t : String}
    {td : TableDef} (hn : (s.tables.map Prod.fst).Nodup)
    (hmem : (t, td) ∈ s.tables) :
    dataGet (create_tic_dat s d) t = loadTable td.primaryKey (dataGet d t) := by
  have hl : List.lookup t
      (s.tables.map (fun e => (e.1, loadTable e.2.primaryKey (dataGet d e.1)))) =
      some (loadTable td.primaryKey (dataGet d t)) :=
    lookup_map_entry hn hmem (fun e => loadTable e.2.primaryKey (dataGet d e.1))
  unfold create_tic_dat
  rw [show dataGet (s.tables.map fun e => (e.1, loadTable e.2.primaryKey (dataGet d e.1))) t =
    (List.lookup t (s.tables.map fun e =>
      (e.1, loadTable e.2.primaryKey (dataGet d e.1)))).getD [] from rfl]
  rw [hl]
  rfl

/-- C9: the dict-of-dict TicDat representation can never hold two rows with
the same primary-key value — every loaded schema table has pairwise-distinct
keys — so `find_duplicates` applied to an already-loaded data set is empty
for every input data set; duplicate detection is only informative on the raw
(csv-level) data, as the dirty diet data shows: its raw duplicate report is
non-empty while its loaded report is empty. -/
theorem tic_dat_load_collapses_duplicates :
    (∀ s d, (s.tables.map Prod.fst).Nodup →
      ∀ e ∈ s.tables, e.2.primaryKey ≠ [] →
        (keyList e.2.primaryKey (dataGet (create_tic_dat s d) e.1)).Nodup) ∧
    (∀ s d, (s.tables.map Prod.fst).Nodup →
      find_duplicates s (create_tic_dat s d) = []) ∧
    find_duplicates dietSchema dirtyDietData ≠ [] ∧
    find_duplicates dietSchema (create_tic_dat dietSchema dirtyDietData) = [] := by
  have key : ∀ (s : Schema) (d : DataSet), (s.tables.map Prod.fst).Nodup →
      ∀ e ∈ s.tables, e.2.primaryKey ≠ [] →
        (keyList e.2.primaryKey (dataGet (create_tic_dat s d) e.1)).Nodup := by
    intro s d hn e he hpk
    rw [dataGet_create_tic_dat hn (by exact he), keyList_loadTable hpk]
    exact nodup_dedupFirstAux _ _
  refine ⟨key, ?_, by decide, by decide⟩
  intro s d hn
  rw [find_duplicates_eq_nil]
  intro t td htd hpk
  exact key s d hn (t, td) htd hpk

/-- Witness for C9 at the dirty diet data: the loaded nutrition_quantities
table has pairwise-distinct keys and the loaded duplicate report is empty. -/
theorem tic_dat_load_collapses_duplicates_witness :
    (keyList nqTD.primaryKey
      (dataGet (create_tic_dat dietSchema dirtyDietData) "nutrition_quantities")).Nodup ∧
    find_duplicates dietSchema (create_tic_dat dietSchema dirtyDietData) = [] :=
  ⟨tic_dat_load_collapses_duplicates.1 dietSchema dirtyDietData (by decide)
      ("nutrition_quantities", nqTD)
      (List.mem_cons_of_mem _ (List.mem_cons_of_mem _ (List.mem_cons_self _ _)))
      (by decide),
    tic_dat_load_collapses_duplicates.2.1 dietSchema dirtyDietData (by decide)⟩

/-! ## The DataFrame-based (PanDat) variant of the checker -/

/-- Modelled from the spec: the PanDat variant of duplicate detection: the
data is kept as full row tables, and for each table with a primary key every
row participating in a duplication (its key occurring more than once) is
returned, as pandas duplicated(keep=False) does; clean tables are omitted. -/
def pan_find_duplicates (s : Schema) (d : DataSet) : List (String × List Row) :=
  s.tables.filterMap fun td =>
    if td.2.primaryKey = [] then none
    else
      let dups := (dataGet d td.1).filter (fun r =>
        1 < countKey (pkOf td.2.primaryKey r) (keyList td.2.primaryKey (dataGet d td.1)))
      if dups = [] then none else some (td.1, dups)

/-- Modelled from the spec: the PanDat variant of the type-failure check:
every raw row (no key-based deduplication) whose constrained field value
violates the constraint is returned as a full row; clean fields are
omitted. -/
def pan_find_data_type_failures (s : Schema) (d : DataSet) :
    List ((String × String) × List Row) :=
  s.tables.flatMap fun td =>
    td.2.typeConstraints.filterMap fun fc =>
      let bad := (dataGet d td.1).filter
        (fun r => ! FieldConstraint.ok fc.2 (rowGet r fc.1))
      if bad = [] then none else some ((td.1, fc.1), bad)

/-- Modelled from the spec: the PanDat variant of the foreign-key check:
the failing child rows of each declared link, as full rows; clean links are
omitted. -/
def pan_find_foreign_key_failures (s : Schema) (d : DataSet) :
    List ((String × String × List (String × String)) × List Row) :=
  s.foreignKeys.filterMap fun fk =>
    let fails := fkFailRows d fk
    if fails = [] then none else some (fkKey fk, fails)

/-- Modelled from the spec: the PanDat variant of the row-predicate check:
every raw row on which a declared predicate is false, as a full row; clean
predicates are omitted. -/
def pan_find_data_row_failures (s : Schema) (d : DataSet) :
    List ((String × String) × List Row) :=
  s.tables.flatMap fun td =>
    td.2.predicates.filterMap fun np =>
      let bad := (dataGet d td.1).filter (fun r => ! np.2 r)
      if bad = [] then none else some ((td.1, np.1), bad)

/-- Data on which the two variants disagree: the violating row keyed K = 1
comes first, so dict-style loading keeps the later clean row. -/
def agreeCexData : DataSet := [("t", [monoCexBadRow, monoCexRow])]

/-- C10 counterexample: on `agreeCexData` the DataFrame-based variant flags
the bad row (K = 1, F = "") as a Quantity-style type failure, while the
dict-based variant — which checks the loaded TicDat representation, where the
duplicated key K = 1 retains only the clean row — reports no type failure at
all: the two variants do not agree on every data set. -/
theorem variants_disagree_counterexample :
    pan_find_data_type_failures monoCexSchema agreeCexData =
      [(("t", "F"), [monoCexBadRow])] ∧
    find_data_type_failures monoCexSchema
      (create_tic_dat monoCexSchema agreeCexData) = [] :=
  ⟨by decide, by decide⟩

theorem mem_pan_find_data_type_failures {s : Schema} {d : DataSet} {t f : String}
    {badRows : List Row} :
    ((t, f), badRows) ∈ pan_find_data_type_failures s d ↔
      ∃ td c, (t, td) ∈ s.tables ∧ (f, c) ∈ td.typeConstraints ∧
        badRows = (dataGet d t).filter
          (fun r => ! FieldConstraint.ok c (rowGet r f)) ∧ badRows ≠ [] := by
  unfold pan_find_data_type_failures
  rw [List.mem_flatMap]
  constructor
  · rintro ⟨⟨t0, td⟩, htd, hmem⟩
    rw [List.mem_filterMap] at hmem
    obtain ⟨⟨f0, c⟩, hfc, heq⟩ := hmem
    by_cases hr : (dataGet d t0).filter
        (fun r => ! FieldConstraint.ok c (rowGet r f0)) = []
    · rw [if_pos hr] at heq
      exact absurd heq Option.noConfusion
    · rw [if_neg hr] at heq
      obtain ⟨h1, h2⟩ := Prod.mk.injEq .. ▸ Option.some.inj heq
      obtain ⟨rfl, rfl⟩ := Prod.mk.injEq .. ▸ h1
      subst h2
      exact ⟨td, c, htd, hfc, rfl, hr⟩
  · rintro ⟨td, c, htd, hfc, rfl, hne⟩
    refine ⟨(t, td), htd, ?_⟩
    rw [List.mem_filterMap]
    exact ⟨(f, c), hfc, by rw [if_neg hne]⟩

theorem mem_pan_find_data_row_failures {s : Schema} {d : DataSet} {t pname : String}
    {badRows : List Row} :
    ((t, pname), badRows) ∈ pan_find_data_row_failures s d ↔
      ∃ td p, (t, td) ∈ s.tables ∧ (pname, p) ∈ td.predicates ∧
        badRows = (dataGet d t).filter (fun r => ! p r) ∧ badRows ≠ [] := by
  unfold pan_find_data_row_failures
  rw [List.mem_flatMap]
  constructor
  · rintro ⟨⟨t0, td⟩, htd, hmem⟩
    rw [List.mem_filterMap] at hmem
    obtain ⟨⟨pn, p⟩, hnp, heq⟩ := hmem
    by_cases hr : (dataGet d t0).filter (fun r => ! p r) = []
    · rw [if_pos hr] at heq
      exact absurd heq Option.noConfusion
    · rw [if_neg hr] at heq
      obtain ⟨h1, h2⟩ := Prod.mk.injEq .. ▸ Option.some.inj heq
      obtain ⟨rfl, rfl⟩ := Prod.mk.injEq .. ▸ h1
      subst h2
      exact ⟨td, p, htd, hnp, rfl, hr⟩
  · rintro ⟨td, p, htd, hnp, rfl, hne⟩
    refine ⟨(t, td), htd, ?_⟩
    rw [List.mem_filterMap]
    exact ⟨(pname, p), hnp, by rw [if_neg hne]⟩

theorem mem_pan_find_foreign_key_failures {s : Schema} {d : DataSet}
    {key : String × String × List (String × String)} {rows : List Row} :
    (key, rows) ∈ pan_find_foreign_key_failures s d ↔
      ∃ fk ∈ s.foreignKeys, fkKey fk = key ∧ rows = fkFailRows d fk ∧ rows ≠ [] := by
  unfold pan_find_foreign_key_failures
  rw [List.mem_filterMap]
  constructor
  · rintro ⟨fk, hfk, heq⟩
    by_cases hr : fkFailRows d fk = []
    · rw [if_pos hr] at heq
      exact absurd heq Option.noConfusion
    · rw [if_neg hr] at heq
      obtain ⟨h1, h2⟩ := Prod.mk.injEq .. ▸ Option.some.inj heq
      subst h1
      subst h2
      exact ⟨fk, hfk, rfl, rfl, hr⟩
  · rintro ⟨fk, hfk, rfl, rfl, hne⟩
    exact ⟨fk, hfk, by rw [if_neg hne]⟩

/-! ## Loaded data equals raw data on duplicate-free tables -/

theorem dedupFirstAux_eq_self {α : Type} [DecidableEq α] {l : List α}
    (h : l.Nodup) :
    ∀ {seen : List α}, (∀ a ∈ l, a ∉ seen) → dedupFirstAux seen l = l := by
  induction l with
  | nil => intro seen _; rfl
  | cons k ks ih =>
    intro seen hdisj
    have hk : k ∉ seen := hdisj k (List.mem_cons_self _ _)
    rw [List.nodup_cons] at h
    unfold dedupFirstAux
    rw [if_neg hk]
    congr 1
    refine ih h.2 ?_
    intro a ha hseen
    rcases List.mem_cons.mp hseen with rfl | hseen'
    · exact h.1 ha
    · exact hdisj a (List.mem_cons_of_mem _ ha) hseen'

theorem dedupFirst_eq_self {α : Type} [DecidableEq α] {l : List α}
    (h : l.Nodup) : dedupFirst l = l :=
  dedupFirstAux_eq_self h (fun a _ ha => List.not_mem_nil a ha)

theorem filter_key_eq_singleton {pk : List String} {rows : List Row} {r : Row}
    (h : (keyList pk rows).Nodup) (hr : r ∈ rows) :
    rows.filter (fun x => pkOf pk x = pkOf pk r) = [r] := by
  induction rows with
  | nil => cases hr
  | cons a rs ih =>
    have h' := h
    rw [show keyList pk (a :: rs) = pkOf pk a :: keyList pk rs from rfl,
      List.nodup_cons] at h'
    rcases List.mem_cons.mp hr with rfl | hr'
    · rw [List.filter_cons]
      rw [if_pos (by simp)]
      have hnil : rs.filter (fun x => pkOf pk x = pkOf pk r) = [] := by
        rw [List.filter_eq_nil_iff]
        intro x hx hbad
        refine h'.1 ?_
        rw [keyList, List.mem_map]
        exact ⟨x, hx, by simpa using hbad⟩
      rw [hnil]
    · rw [List.filter_cons]
      have hne : ¬ (pkOf pk a = pkOf pk r) := by
        intro he
        refine h'.1 ?_
        rw [keyList, List.mem_map]
        exact ⟨r, hr', he.symm⟩
      rw [if_neg (by simpa using hne)]
      exact ih h'.2 hr'

theorem loadTable_eq_self {pk : List String} {rows : List Row}
    (h : (keyList pk rows).Nodup) : loadTable pk rows = rows := by
  unfold loadTable
  split
  · rfl
  · rw [dedupFirst_eq_self h]
    rw [show keyList pk rows = rows.map (pkOf pk) from rfl, List.map_map]
    have hcongr : ∀ r ∈ rows,
        ((fun k => lastRowWith pk k rows) ∘ pkOf pk) r = r := by
      intro r hr
      show lastRowWith pk (pkOf pk r) rows = r
      unfold lastRowWith
      rw [filter_key_eq_singleton h hr]
      rfl
    rw [List.map_congr_left hcongr]
    exact List.map_id _

theorem mem_of_lookup {β : Type} {l : List (String × β)} {t : String} {b : β}
    (h : List.lookup t l = some b) : (t, b) ∈ l := by
  induction l with
  | nil => exact absurd h Option.noConfusion
  | cons a l ih =>
    rw [List.lookup] at h
    cases hc : (t == a.1) with
    | true =>
      rw [hc] at h
      cases Option.some.inj h
      have ht : t = a.1 := eq_of_beq hc
      subst ht
      exact List.mem_cons_self a l
    | false =>
      rw [hc] at h
      exact List.mem_cons_of_mem _ (ih h)

/-- C10 model invariant: a schema is a well-formed mapping when its table
names, each table's constrained field names, each table's predicate names and
its foreign-key report keys are pairwise distinct. -/
def WellFormedSchema (s : Schema) : Prop :=
  (s.tables.map Prod.fst).Nodup ∧
  (∀ e ∈ s.tables, (e.2.typeConstraints.map Prod.fst).Nodup ∧
    (e.2.predicates.map Prod.fst).Nodup) ∧
  (s.foreignKeys.map fkKey).Nodup

theorem table_unique {s : Schema} (hn : (s.tables.map Prod.fst).Nodup)
    {t : String} {td td' : TableDef} (h1 : (t, td) ∈ s.tables)
    (h2 : (t, td') ∈ s.tables) : td = td' := by
  have := List.inj_on_of_nodup_map hn h1 h2 rfl
  cases this
  rfl

theorem pair_unique {β : Type} {l : List (String × β)}
    (hn : (l.map Prod.fst).Nodup) {f : String} {c c' : β}
    (h1 : (f, c) ∈ l) (h2 : (f, c') ∈ l) : c = c' := by
  have := List.inj_on_of_nodup_map hn h1 h2 rfl
  cases this
  rfl

theorem fk_unique {s : Schema} (hn : (s.foreignKeys.map fkKey).Nodup)
    {fk fk' : ForeignKey} (h1 : fk ∈ s.foreignKeys) (h2 : fk' ∈ s.foreignKeys)
    (hk : fkKey fk = fkKey fk') : fk = fk' :=
  List.inj_on_of_nodup_map hn h1 h2 hk

theorem dataGet_create_eq_raw {s : Schema} {d : DataSet}
    (hn : (s.tables.map Prod.fst).Nodup) (hnd : NoDuplicateKeys s d)
    {t : String} {td : TableDef} (hmem : (t, td) ∈ s.tables) :
    dataGet (create_tic_dat s d) t = dataGet d t := by
  rw [dataGet_create_tic_dat hn hmem]
  by_cases hpk : td.primaryKey = []
  · unfold loadTable
    rw [if_pos hpk]
  · exact loadTable_eq_self (hnd (t, td) hmem hpk)

/-! ## Agreement of the two variants -/

/-- The PanDat variant flags row r as a type failure of (table, field). -/
def panFlagsType (s : Schema) (d : DataSet) (t f : String) (r : Row) : Prop :=
  ∃ badRows, ((t, f), badRows) ∈ pan_find_data_type_failures s d ∧ r ∈ badRows

/-- The TicDat variant (after loading) lists key k under some bad-value group
of the (table, field) type-failure entry. -/
def ticFlagsType (s : Schema) (d : DataSet) (t f : String) (k : List Value) : Prop :=
  ∃ groups v pks, ((t, f), groups) ∈ find_data_type_failures s (create_tic_dat s d) ∧
    (v, pks) ∈ groups ∧ k ∈ pks

/-- The PanDat variant flags row r under (table, predicate name). -/
def panFlagsPred (s : Schema) (d : DataSet) (t pname : String) (r : Row) : Prop :=
  ∃ badRows, ((t, pname), badRows) ∈ pan_find_data_row_failures s d ∧ r ∈ badRows

/-- The TicDat variant (after loading) lists key k under (table, predicate
name). -/
def ticFlagsPred (s : Schema) (d : DataSet) (t pname : String) (k : List Value) : Prop :=
  ∃ pks, ((t, pname), pks) ∈ find_data_row_failures s (create_tic_dat s d) ∧ k ∈ pks

/-- The PanDat variant flags child row r under a foreign-key link. -/
def panFlagsFK (s : Schema) (d : DataSet) (fk : ForeignKey) (r : Row) : Prop :=
  ∃ rows, (fkKey fk, rows) ∈ pan_find_foreign_key_failures s d ∧ r ∈ rows

/-- The TicDat variant (after loading) lists child key k in the low-verbosity
entry of a foreign-key link. -/
def ticFlagsFK (s : Schema) (d : DataSet) (fk : ForeignKey) (k : List Value) : Prop :=
  ∃ bvs pks, (fkKey fk, FKEntry.low bvs pks) ∈
    find_foreign_key_failures s (create_tic_dat s d) .low ∧ k ∈ pks

theorem panFlagsType_iff {s : Schema} {d : DataSet} {t f : String}
    {td : TableDef} {c : FieldConstraint} {r : Row}
    (hn : (s.tables.map Prod.fst).Nodup)
    (hcn : (td.typeConstraints.map Prod.fst).Nodup)
    (htd : (t, td) ∈ s.tables) (hfc : (f, c) ∈ td.typeConstraints)
    (hr : r ∈ dataGet d t) :
    panFlagsType s d t f r ↔ FieldConstraint.ok c (rowGet r f) = false := by
  unfold panFlagsType
  constructor
  · rintro ⟨badRows, hmem, hrb⟩
    obtain ⟨td', c', htd', hfc', rfl, -⟩ := mem_pan_find_data_type_failures.mp hmem
    obtain rfl : td' = td := table_unique hn htd' htd
    obtain rfl : c' = c := pair_unique hcn hfc' hfc
    have := (List.mem_filter.mp hrb).2
    simpa using this
  · intro hbad
    have hrb : r ∈ (dataGet d t).filter
        (fun r0 => ! FieldConstraint.ok c (rowGet r0 f)) :=
      List.mem_filter.mpr ⟨hr, by simp [hbad]⟩
    exact ⟨_, mem_pan_find_data_type_failures.mpr
      ⟨td, c, htd, hfc, rfl, List.ne_nil_of_mem hrb⟩, hrb⟩

theorem ticFlagsType_iff {s : Schema} {d : DataSet} {t f : String}
    {td : TableDef} {c : FieldConstraint} {r : Row}
    (hn : (s.tables.map Prod.fst).Nodup) (hnd : NoDuplicateKeys s d)
    (hcn : (td.typeConstraints.map Prod.fst).Nodup)
    (htd : (t, td) ∈ s.tables) (hfc : (f, c) ∈ td.typeConstraints)
    (hpk : td.primaryKey ≠ []) (hr : r ∈ dataGet d t) :
    ticFlagsType s d t f (pkOf td.primaryKey r) ↔
      FieldConstraint.ok c (rowGet r f) = false := by
  unfold ticFlagsType
  have hraw : dataGet (create_tic_dat s d) t = dataGet d t :=
    dataGet_create_eq_raw hn hnd htd
  have hded : dedupRows td.primaryKey (dataGet d t) = dataGet d t :=
    dedupRows_eq_self (hnd (t, td) htd hpk)
  have hrded : r ∈ dedupRows td.primaryKey (dataGet d t) := by
    rw [hded]
    exact hr
  constructor
  · rintro ⟨groups, v, pks, hg, hvp, hk⟩
    obtain ⟨td', c', htd', hfc', hgroups, -⟩ := mem_find_data_type_failures.mp hg
    obtain rfl : td' = td := table_unique hn htd' htd
    obtain rfl : c' = c := pair_unique hcn hfc' hfc
    rw [hraw] at hgroups
    subst hgroups
    exact (pk_mem_typeFailuresFor hpk hrded).mp ⟨v, pks, hvp, hk⟩
  · intro hbad
    obtain ⟨v, pks, hvp, hk⟩ := (pk_mem_typeFailuresFor hpk hrded).mpr hbad
    refine ⟨typeFailuresFor c f td.primaryKey (dataGet d t), v, pks, ?_, hvp, hk⟩
    refine mem_find_data_type_failures.mpr ⟨td, c, htd, hfc, by rw [hraw], ?_⟩
    intro hnil
    have hall := typeFailuresFor_eq_nil.mp hnil r hrded
    rw [hbad] at hall
    exact Bool.false_ne_true hall

theorem panFlagsPred_iff {s : Schema} {d : DataSet} {t pname : String}
    {td : TableDef} {p : Row → Bool} {r : Row}
    (hn : (s.tables.map Prod.fst).Nodup)
    (hpn : (td.predicates.map Prod.fst).Nodup)
    (htd : (t, td) ∈ s.tables) (hnp : (pname, p) ∈ td.predicates)
    (hr : r ∈ dataGet d t) :
    panFlagsPred s d t pname r ↔ p r = false := by
  unfold panFlagsPred
  constructor
  · rintro ⟨badRows, hmem, hrb⟩
    obtain ⟨td', p', htd', hnp', rfl, -⟩ := mem_pan_find_data_row_failures.mp hmem
    obtain rfl : td' = td := table_unique hn htd' htd
    obtain rfl : p' = p := pair_unique hpn hnp' hnp
    have := (List.mem_filter.mp hrb).2
    simpa using this
  · intro hbad
    have hrb : r ∈ (dataGet d t).filter (fun r0 => ! p r0) :=
      List.mem_filter.mpr ⟨hr, by simp [hbad]⟩
    exact ⟨_, mem_pan_find_data_row_failures.mpr
      ⟨td, p, htd, hnp, rfl, List.ne_nil_of_mem hrb⟩, hrb⟩

theorem ticFlagsPred_iff {s : Schema} {d : DataSet} {t pname : String}
    {td : TableDef} {p : Row → Bool} {r : Row}
    (hn : (s.tables.map Prod.fst).Nodup) (hnd : NoDuplicateKeys s d)
    (hpn : (td.predicates.map Prod.fst).Nodup)
    (htd : (t, td) ∈ s.tables) (hnp : (pname, p) ∈ td.predicates)
    (hpk : td.primaryKey ≠ []) (hr : r ∈ dataGet d t) :
    ticFlagsPred s d t pname (pkOf td.primaryKey r) ↔ p r = false := by
  unfold ticFlagsPred
  have hraw : dataGet (create_tic_dat s d) t = dataGet d t :=
    dataGet_create_eq_raw hn hnd htd
  have hded : dedupRows td.primaryKey (dataGet d t) = dataGet d t :=
    dedupRows_eq_self (hnd (t, td) htd hpk)
  have hrded : r ∈ dedupRows td.primaryKey (dataGet d t) := by
    rw [hded]
    exact hr
  constructor
  · rintro ⟨pks, hg, hk⟩
    obtain ⟨td', p', htd', hnp', hpks, -⟩ := mem_find_data_row_failures.mp hg
    obtain rfl : td' = td := table_unique hn htd' htd
    obtain rfl : p' = p := pair_unique hpn hnp' hnp
    rw [hraw] at hpks
    subst hpks
    exact (pk_mem_predFailPks hpk hrded).mp hk
  · intro hbad
    have hk := (pk_mem_predFailPks hpk hrded).mpr hbad
    refine ⟨predFailPks td.primaryKey p (dataGet d t), ?_, hk⟩
    refine mem_find_data_row_failures.mpr ⟨td, p, htd, hnp, by rw [hraw], ?_⟩
    intro hnil
    have hall := predFailPks_eq_nil.mp hnil r hrded
    rw [hbad] at hall
    exact Bool.false_ne_true hall

theorem fkConfigOk_of_schemaConfigOk {s : Schema} {fk : ForeignKey}
    (hcfg : schemaConfigOk s = true) (hfk : fk ∈ s.foreignKeys) :
    fkConfigOk s fk = true := by
  unfold schemaConfigOk at hcfg
  rw [Bool.and_eq_true] at hcfg
  have h := hcfg.2
  rw [List.all_eq_true] at h
  exact h fk hfk

theorem fk_tables_exist {s : Schema} {fk : ForeignKey}
    (hcfg : schemaConfigOk s = true) (hfk : fk ∈ s.foreignKeys) :
    ∃ ctd ptd, List.lookup fk.childTable s.tables = some ctd ∧
      List.lookup fk.parentTable s.tables = some ptd := by
  have h := fkConfigOk_of_schemaConfigOk hcfg hfk
  unfold fkConfigOk at h
  cases hcl : List.lookup fk.childTable s.tables with
  | none =>
    rw [hcl] at h
    simp at h
  | some ctd =>
    cases hpl : List.lookup fk.parentTable s.tables with
    | none =>
      rw [hcl, hpl] at h
      simp at h
    | some ptd => exact ⟨ctd, ptd, rfl, rfl⟩

theorem fkFailRows_create {s : Schema} {d : DataSet} {fk : ForeignKey}
    (hn : (s.tables.map Prod.fst).Nodup) (hnd : NoDuplicateKeys s d)
    (hcfg : schemaConfigOk s = true) (hfk : fk ∈ s.foreignKeys) :
    fkFailRows (create_tic_dat s d) fk = fkFailRows d fk := by
  obtain ⟨ctd, ptd, hcl, hpl⟩ := fk_tables_exist hcfg hfk
  have hc : dataGet (create_tic_dat s d) fk.childTable = dataGet d fk.childTable :=
    dataGet_create_eq_raw hn hnd (mem_of_lookup hcl)
  have hp : dataGet (create_tic_dat s d) fk.parentTable = dataGet d fk.parentTable :=
    dataGet_create_eq_raw hn hnd (mem_of_lookup hpl)
  unfold fkFailRows
  rw [hc, hp]

theorem panFlagsFK_iff {s : Schema} {d : DataSet} {fk : ForeignKey} {r : Row}
    (hfkn : (s.foreignKeys.map fkKey).Nodup) (hfk : fk ∈ s.foreignKeys) :
    panFlagsFK s d fk r ↔ r ∈ fkFailRows d fk := by
  unfold panFlagsFK
  constructor
  · rintro ⟨rows, hmem, hr⟩
    obtain ⟨fk', hfk', hkey, rfl, -⟩ := mem_pan_find_foreign_key_failures.mp hmem
    obtain rfl : fk' = fk := fk_unique hfkn hfk' hfk hkey
    exact hr
  · intro hr
    exact ⟨fkFailRows d fk, mem_pan_find_foreign_key_failures.mpr
      ⟨fk, hfk, rfl, rfl, List.ne_nil_of_mem hr⟩, hr⟩

theorem ticFlagsFK_iff {s : Schema} {d : DataSet} {fk : ForeignKey} {r : Row}
    (hn : (s.tables.map Prod.fst).Nodup) (hnd : NoDuplicateKeys s d)
    (hcfg : schemaConfigOk s = true)
    (hfkn : (s.foreignKeys.map fkKey).Nodup) (hfk : fk ∈ s.foreignKeys)
    (hpkall : ∀ e ∈ s.tables, e.2.primaryKey ≠ [])
    (hr : r ∈ dataGet d fk.childTable) :
    ticFlagsFK s d fk (pkOf (tablePk s fk.childTable) r) ↔ r ∈ fkFailRows d fk := by
  obtain ⟨ctd, ptd, hcl, hpl⟩ := fk_tables_exist hcfg hfk
  have hcmem : (fk.childTable, ctd) ∈ s.tables := mem_of_lookup hcl
  have htpk : tablePk s fk.childTable = ctd.primaryKey := by
    unfold tablePk
    rw [hcl]
    rfl
  have hcknd : (keyList (tablePk s fk.childTable) (dataGet d fk.childTable)).Nodup := by
    rw [htpk]
    exact hnd (fk.childTable, ctd) hcmem (hpkall (fk.childTable, ctd) hcmem)
  unfold ticFlagsFK
  constructor
  · rintro ⟨bvs, pks, hmem, hk⟩
    obtain ⟨fk', hfk', hkey, hentry⟩ := mem_find_foreign_key_failures.mp hmem
    have heq : fk' = fk := fk_unique hfkn hfk' hfk hkey
    rw [heq] at hentry
    by_cases hnil : fkFailRows (create_tic_dat s d) fk = []
    · rw [fkEntry_eq_none.mpr hnil] at hentry
      exact absurd hentry Option.noConfusion
    · rw [fkEntry_low hnil] at hentry
      have h2 := Option.some.inj hentry
      cases h2
      rw [fkFailRows_create hn hnd hcfg hfk] at hk
      rw [List.mem_map] at hk
      obtain ⟨r0, hr0, hkey0⟩ := hk
      have hr0raw : r0 ∈ dataGet d fk.childTable := (mem_fkFailRows.mp hr0).1
      obtain rfl : r0 = r := List.inj_on_of_nodup_map hcknd hr0raw hr hkey0
      exact hr0
  · intro hrf
    have hnil : fkFailRows (create_tic_dat s d) fk ≠ [] := by
      rw [fkFailRows_create hn hnd hcfg hfk]
      exact List.ne_nil_of_mem hrf
    refine ⟨_, _, mem_find_foreign_key_failures.mpr
      ⟨fk, hfk, rfl, fkEntry_low hnil⟩, ?_⟩
    rw [fkFailRows_create hn hnd hcfg hfk]
    exact List.mem_map.mpr ⟨r, hrf, rfl⟩

theorem pan_find_duplicates_eq_nil {s : Schema} {d : DataSet}
    (hnd : NoDuplicateKeys s d) : pan_find_duplicates s d = [] := by
  unfold pan_find_duplicates
  rw [List.filterMap_eq_nil_iff]
  intro e he
  by_cases hpk : e.2.primaryKey = []
  · rw [if_pos hpk]
  · rw [if_neg hpk]
    have hnodup := hnd e he hpk
    have hfil : (dataGet d e.1).filter (fun r =>
        1 < countKey (pkOf e.2.primaryKey r)
          (keyList e.2.primaryKey (dataGet d e.1))) = [] := by
      rw [List.filter_eq_nil_iff]
      intro r _ hcount
      have hle := nodup_iff_countKey_le_one.mp hnodup (pkOf e.2.primaryKey r)
      have hgt := of_decide_eq_true hcount
      omega
    rw [if_pos hfil]

/-- C10 (amended): on every data set without duplicate primary keys — over a
well-formed, well-configured schema whose tables all carry primary keys — the
dict-based (TicDat, checked after loading) and DataFrame-based (PanDat,
checked on the raw tables) variants agree: both duplicate reports are empty,
and for each constrained field, foreign-key link and row predicate the PanDat
variant flags a row exactly when the TicDat variant lists that row's primary
key.  On the dirty diet data (which does contain a duplicate) the two
variants also agree, both reporting exactly: duplicates only for
nutrition_quantities at (milk, fat); type failures only for
(nutrition_quantities, Quantity) at (macaroni, calories) and (chicken, fat);
foreign-key failures only for (nutrition_quantities, foods, (Food, Name))
with failing value pizza and four offending rows; and predicate failures only
for (categories, Min Max Check) at fat. -/
theorem variants_agree_spec :
    (∀ s d, WellFormedSchema s → schemaConfigOk s = true →
      (∀ e ∈ s.tables, e.2.primaryKey ≠ []) → NoDuplicateKeys s d →
      (find_duplicates s d = [] ∧ pan_find_duplicates s d = []) ∧
      (∀ t td f c r, (t, td) ∈ s.tables → (f, c) ∈ td.typeConstraints →
          r ∈ dataGet d t →
          (panFlagsType s d t f r ↔ ticFlagsType s d t f (pkOf td.primaryKey r))) ∧
      (∀ fk r, fk ∈ s.foreignKeys → r ∈ dataGet d fk.childTable →
          (panFlagsFK s d fk r ↔
            ticFlagsFK s d fk (pkOf (tablePk s fk.childTable) r))) ∧
      (∀ t td pname p r, (t, td) ∈ s.tables → (pname, p) ∈ td.predicates →
          r ∈ dataGet d t →
          (panFlagsPred s d t pname r ↔
            ticFlagsPred s d t pname (pkOf td.primaryKey r)))) ∧
    (find_duplicates dietSchema dirtyDietData =
        [("nutrition_quantities", [([.str "milk", .str "fat"], 2)])] ∧
      pan_find_duplicates dietSchema dirtyDietData =
        [("nutrition_quantities",
          [nqRow "milk" "fat" (.num 2), nqRow "milk" "fat" (.num 1)])]) ∧
    (find_data_type_failures dietSchema (create_tic_dat dietSchema dirtyDietData) =
        [(("nutrition_quantities", "Quantity"),
          [(.str "", [[.str "macaroni", .str "calories"],
            [.str "chicken", .str "fat"]])])] ∧
      pan_find_data_type_failures dietSchema dirtyDietData =
        [(("nutrition_quantities", "Quantity"),
          [nqRow "macaroni" "calories" (.str ""),
            nqRow "chicken" "fat" (.str "")])]) ∧
    (find_foreign_key_failures dietSchema
        (create_tic_dat dietSchema dirtyDietData) .low =
        [(("nutrition_quantities", "foods", [("Food", "Name")]),
          .low [[.str "pizza"]]
            [[.str "pizza", .str "protein"], [.str "pizza", .str "sodium"],
              [.str "pizza", .str "fat"], [.str "pizza", .str "calories"]])] ∧
      pan_find_foreign_key_failures dietSchema dirtyDietData =
        [(("nutrition_quantities", "foods", [("Food", "Name")]),
          [nqRow "pizza" "protein" (.num 15), nqRow "pizza" "sodium" (.num 820),
            nqRow "pizza" "fat" (.num 12), nqRow "pizza" "calories" (.num 320)])]) ∧
    (find_data_row_failures dietSchema (create_tic_dat dietSchema dirtyDietData) =
        [(("categories", "Min Max Check"), [[.str "fat"]])] ∧
      pan_find_data_row_failures dietSchema dirtyDietData =
        [(("categories", "Min Max Check"), [categoryRow "fat" 70 65])]) := by
  refine ⟨?_, ⟨by decide, by decide⟩, ⟨by decide, by decide⟩,
    ⟨by decide, by decide⟩, ⟨by decide, by decide⟩⟩
  intro s d hw hcfg hpkall hnd
  obtain ⟨hn, hcp, hfkn⟩ := hw
  refine ⟨⟨?_, pan_find_duplicates_eq_nil hnd⟩, ?_, ?_, ?_⟩
  · rw [find_duplicates_eq_nil]
    intro t td htd hpk
    exact hnd (t, td) htd hpk
  · intro t td f c r htd hfc hr
    rw [panFlagsType_iff hn (hcp (t, td) htd).1 htd hfc hr,
      ticFlagsType_iff hn hnd (hcp (t, td) htd).1 htd hfc (hpkall (t, td) htd) hr]
  · intro fk r hfk hr
    rw [panFlagsFK_iff hfkn hfk,
      ticFlagsFK_iff hn hnd hcfg hfkn hfk hpkall hr]
  · intro t td pname p r htd hnp hr
    rw [panFlagsPred_iff hn (hcp (t, td) htd).2 htd hnp hr,
      ticFlagsPred_iff hn hnd (hcp (t, td) htd).2 htd hnp (hpkall (t, td) htd) hr]

/-- Witness for the amended C10: on the duplicate-free one-row data set over
the monotonicity schema, the PanDat flagging of the bad row transfers through
the agreement to the TicDat flagging of its primary key. -/
theorem variants_agree_spec_witness :
    ticFlagsType monoCexSchema [("t", [monoCexBadRow])] "t" "F"
      (pkOf monoCexTD.primaryKey monoCexBadRow) :=
  ((variants_agree_spec.1 monoCexSchema [("t", [monoCexBadRow])]
      ⟨by decide,
        by
          intro e he
          rcases List.mem_cons.mp he with rfl | h
          · exact ⟨by decide, by decide⟩
          · exact absurd h (List.not_mem_nil e),
        by decide⟩
      (by decide)
      (by
        intro e he
        rcases List.mem_cons.mp he with rfl | h
        · decide
        · exact absurd h (List.not_mem_nil e))
      (by
        intro e he hpk
        rcases List.mem_cons.mp he with rfl | h
        · decide
        · exact absurd h (List.not_mem_nil e))).2.1
    "t" monoCexTD "F" (.numeric 0 100 false) monoCexBadRow
    (List.mem_cons_self _ _) (by decide) (by decide)).mp
    ⟨[monoCexBadRow], by decide, by decide⟩

end TicdatCheck
